import Mathlib

set_option autoImplicit false

/-!
Verification of the simcraft queueing primitives
(`src/simcraft/resources/queue.py`): the statistics tracker `QueueStats`,
the FIFO `Queue`, and the heap-backed `PriorityQueue`, together with a
model of the CPython `heapq` routines (`heappush`, `heappop`, `heapify`)
that the priority queue delegates to.

Python floats are modelled as rationals (every scenario in the spec uses
values on which float arithmetic is exact), Python ints as `Nat`/`Int`,
and Python objects as a pair of an identity (`is` comparison) and a value
(`==` comparison).
-/

namespace Simcraft

/-- Model of a Python object held in a queue: `oid` models the object's
identity (the `is` comparison) and `val` its value (the `==` comparison). -/
structure PyObj where
  oid : ℕ
  val : ℕ
deriving DecidableEq, Repr

/-- The matching rule `entry.item is item or entry.item == item` used by
`Queue.remove`, `Queue.contains` and `PriorityQueue._find_entry`. -/
def pyMatch (a b : PyObj) : Bool := a.oid == b.oid || a.val == b.val

/-- Python `==` on queue items (value equality). -/
def pyObjEq (a b : PyObj) : Bool := a.val == b.val

/-- `QueueStats`: statistics for queue performance.  Field names follow the
source; the Python private names `_last_change_time` and `_current_length`
drop the underscore. -/
structure QueueStats where
  entries : ℕ
  exits : ℕ
  max_length : ℤ
  total_wait_time : ℚ
  area : ℚ
  last_change_time : ℚ
  current_length : ℤ
deriving DecidableEq, Repr

/-- The dataclass defaults: all counters zero. -/
def QueueStats.init : QueueStats :=
  ⟨0, 0, 0, 0, 0, 0, 0⟩

/-- `QueueStats._update_area`. -/
def QueueStats.update_area (s : QueueStats) (time : ℚ) : QueueStats :=
  { s with
    area := s.area + s.current_length * (time - s.last_change_time)
    last_change_time := time }

/-- `QueueStats.record_entry`. -/
def QueueStats.record_entry (s : QueueStats) (time : ℚ) : QueueStats :=
  let s := s.update_area time
  let s := { s with entries := s.entries + 1, current_length := s.current_length + 1 }
  { s with max_length := max s.max_length s.current_length }

/-- `QueueStats.record_exit`. -/
def QueueStats.record_exit (s : QueueStats) (time wait_time : ℚ) : QueueStats :=
  let s := s.update_area time
  { s with
    exits := s.exits + 1
    current_length := s.current_length - 1
    total_wait_time := s.total_wait_time + wait_time }

/-- `QueueStats.average_length` property. -/
def QueueStats.average_length (s : QueueStats) : ℚ :=
  if s.last_change_time = 0 then 0 else s.area / s.last_change_time

/-- `QueueStats.average_wait` property. -/
def QueueStats.average_wait (s : QueueStats) : ℚ :=
  if s.exits = 0 then 0 else s.total_wait_time / (s.exits : ℚ)

/-- `QueueStats.reset`: every field back to zero. -/
def QueueStats.reset (_ : QueueStats) : QueueStats :=
  QueueStats.init

/-- `QueueEntry`: wrapper for FIFO queue items with entry metadata. -/
structure QueueEntry where
  item : PyObj
  entry_time : ℚ
deriving DecidableEq, Repr

/-- Python `==` on `QueueEntry` (dataclass equality: all fields). -/
def pyEntryEq (a b : QueueEntry) : Bool :=
  pyObjEq a.item b.item && a.entry_time == b.entry_time

/-- A callback invocation observed by the caller (the single-slot
`_on_enqueue` / `_on_dequeue` hooks receive the raw item). -/
inductive CbEvent where
  | enq (item : PyObj)
  | deq (item : PyObj)
deriving DecidableEq, Repr

/-- The FIFO `Queue`.  The simulation clock lives outside the class: each operation
takes the current time as an argument.  The callback slots are modelled by
two flags (whether `_on_enqueue` / `_on_dequeue` are set); operations
return the list of callback invocations they fire. -/
structure Queue where
  capacity : ℕ
  entries : List QueueEntry
  stats : QueueStats
  has_on_enqueue : Bool
  has_on_dequeue : Bool
deriving DecidableEq, Repr

/-- `Queue.__init__` (plus optional `on_enqueue` / `on_dequeue` registration). -/
def Queue.init (capacity : ℕ) (hasE hasD : Bool) : Queue :=
  ⟨capacity, [], QueueStats.init, hasE, hasD⟩

/-- `Queue.is_empty`. -/
def Queue.is_empty (q : Queue) : Bool := q.entries.isEmpty

/-- `Queue.is_full`: `False` when capacity is `0`, else `len >= capacity`. -/
def Queue.is_full (q : Queue) : Bool :=
  if q.capacity = 0 then false else decide (q.capacity ≤ q.entries.length)

/-- `Queue.enqueue`: result, new state, and fired callbacks. -/
def Queue.enqueue (q : Queue) (item : PyObj) (now : ℚ) :
    Bool × Queue × List CbEvent :=
  if q.is_full then (false, q, [])
  else
    let entry : QueueEntry := ⟨item, now⟩
    let q' : Queue :=
      { q with entries := q.entries ++ [entry], stats := q.stats.record_entry now }
    (true, q', if q.has_on_enqueue then [CbEvent.enq item] else [])

/-- `Queue.dequeue`: result, new state, and fired callbacks. -/
def Queue.dequeue (q : Queue) (now : ℚ) :
    Option PyObj × Queue × List CbEvent :=
  match q.entries with
  | [] => (none, q, [])
  | e :: rest =>
    let wait := now - e.entry_time
    let q' : Queue := { q with entries := rest, stats := q.stats.record_exit now wait }
    (some e.item, q', if q.has_on_dequeue then [CbEvent.deq e.item] else [])

/-- `Queue.peek`. -/
def Queue.peek (q : Queue) : Option PyObj :=
  q.entries.head?.map (·.item)

/-- `Queue.remove`: scan head-to-tail for the first entry matching
`entry.item is item or entry.item == item`; on a match, `deque.remove`
deletes the first `==`-equal wrapper and an exit is recorded with the
matched entry's wait time. -/
def Queue.remove (q : Queue) (item : PyObj) (now : ℚ) : Bool × Queue :=
  match q.entries.find? (fun e => pyMatch e.item item) with
  | none => (false, q)
  | some e =>
    let entries' := q.entries.eraseP (fun e2 => pyEntryEq e2 e)
    let wait := now - e.entry_time
    (true, { q with entries := entries', stats := q.stats.record_exit now wait })

/-- `Queue.contains`. -/
def Queue.contains (q : Queue) (item : PyObj) : Bool :=
  q.entries.any (fun e => pyMatch e.item item)

/-- `Queue.clear` as written in the source: its first statement reads
`self._items`, an attribute that does not exist on the class (the deque is
`self._entries`), so the call raises `AttributeError` before touching any
state.  Modelled as an error result. -/
def Queue.clear (_ : Queue) : Except String (List PyObj × Queue) :=
  Except.error "AttributeError: Queue object has no attribute _items"

/-- `Queue.reset_stats`: reset the tracker, then re-synchronize its
current length to the actual number of stored entries. -/
def Queue.reset_stats (q : Queue) : Queue :=
  { q with stats := { QueueStats.init with current_length := (q.entries.length : ℤ) } }

/-- `Queue.__iter__`: items in head-to-tail order. -/
def Queue.items (q : Queue) : List PyObj :=
  q.entries.map (·.item)

/-- A public FIFO-queue operation, paired with the clock value at which
it is invoked. -/
inductive QOp where
  | enq (item : PyObj) (t : ℚ)
  | deq (t : ℚ)
  | rem (item : PyObj) (t : ℚ)
  | clear
  | reset
deriving DecidableEq, Repr

/-- Apply one public operation to a FIFO queue (discarding outputs).
`clear` raises `AttributeError` before mutating anything, so it leaves the
state unchanged. -/
def Queue.step (q : Queue) (op : QOp) : Queue :=
  match op with
  | QOp.enq item t => (q.enqueue item t).2.1
  | QOp.deq t => (q.dequeue t).2.1
  | QOp.rem item t => (q.remove item t).2
  | QOp.clear =>
    match q.clear with
    | Except.ok (_, q') => q'
    | Except.error _ => q
  | QOp.reset => q.reset_stats

/-- Run a sequence of public operations. -/
def Queue.run (q : Queue) (ops : List QOp) : Queue :=
  ops.foldl Queue.step q

section Heapq

variable {α : Type} [Inhabited α]

/-- Index of a node's parent in the array representation of a binary
heap: `parentpos = (pos - 1) >> 1`. -/
def parentIdx (j : ℕ) : ℕ := (j - 1) / 2

/-- CPython `heapq._siftdown` after `newitem = heap[pos]` has been read:
while `pos > startpos` and `newitem < parent`, the parent moves down into
`pos`; finally `newitem` is written at the resting position.  The `fuel`
argument only drives structural recursion: the parent index strictly
decreases, so any `fuel ≥ pos` computes the untruncated loop. -/
def siftdownAux (lt : α → α → Bool) (newitem : α) :
    ℕ → List α → ℕ → ℕ → List α
  | 0, heap, _, pos => heap.set pos newitem
  | fuel + 1, heap, startpos, pos =>
    if startpos < pos then
      let parentpos := parentIdx pos
      let parent := heap.getD parentpos default
      if lt newitem parent then
        siftdownAux lt newitem fuel (heap.set pos parent) startpos parentpos
      else heap.set pos newitem
    else heap.set pos newitem

/-- CPython `heapq._siftdown(heap, startpos, pos)`. -/
def siftdown (lt : α → α → Bool) (heap : List α) (startpos pos : ℕ) : List α :=
  siftdownAux lt (heap.getD pos default) pos heap startpos pos

/-- CPython `heapq._siftup` after `newitem = heap[pos]` has been read:
bubble the smaller child up until reaching a leaf, then place `newitem`
and let `_siftdown` move it back towards the root.  Any
`fuel ≥ heap.length - pos` computes the untruncated loop. -/
def siftupAux (lt : α → α → Bool) (newitem : α) :
    ℕ → List α → ℕ → ℕ → List α
  | 0, heap, startpos, pos => siftdownAux lt newitem pos (heap.set pos newitem) startpos pos
  | fuel + 1, heap, startpos, pos =>
    let endpos := heap.length
    let childpos := 2 * pos + 1
    if childpos < endpos then
      let rightpos := childpos + 1
      let childpos :=
        if rightpos < endpos &&
            !(lt (heap.getD childpos default) (heap.getD rightpos default)) then
          rightpos
        else childpos
      siftupAux lt newitem fuel (heap.set pos (heap.getD childpos default)) startpos childpos
    else siftdownAux lt newitem pos (heap.set pos newitem) startpos pos

/-- CPython `heapq._siftup(heap, pos)` (with `startpos = pos`). -/
def siftup (lt : α → α → Bool) (heap : List α) (pos : ℕ) : List α :=
  siftupAux lt (heap.getD pos default) heap.length heap pos pos

/-- CPython `heapq.heappush`: append, then sift down from the new leaf. -/
def heappush (lt : α → α → Bool) (heap : List α) (item : α) : List α :=
  siftdown lt (heap ++ [item]) 0 heap.length

/-- CPython `heapq.heappop`: pop the last element; if the heap is still
nonempty, move it to the root and sift up.  Returns `none` on an empty
heap (CPython raises `IndexError`; both queue methods guard with
`is_empty` first). -/
def heappop (lt : α → α → Bool) (heap : List α) : Option (α × List α) :=
  match heap with
  | [] => none
  | [x] => some (x, [])
  | _ =>
    let lastelt := heap.getD (heap.length - 1) default
    let rest := heap.dropLast
    some (rest.getD 0 default, siftup lt (rest.set 0 lastelt) 0)

/-- CPython `heapq.heapify`: `for i in reversed(range(n // 2)): _siftup(x, i)`. -/
def heapify (lt : α → α → Bool) (heap : List α) : List α :=
  (List.range (heap.length / 2)).reverse.foldl (fun h i => siftup lt h i) heap

/-- Repeatedly `heappop` until the heap is empty, collecting the popped
elements in order.  `fuel ≥ heap.length` computes the full sequence. -/
def heapPopAllAux (lt : α → α → Bool) : ℕ → List α → List α
  | 0, _ => []
  | fuel + 1, heap =>
    match heappop lt heap with
    | none => []
    | some (m, rest) => m :: heapPopAllAux lt fuel rest

/-- The sequence of elements obtained by popping the heap dry. -/
def heapPopAll (lt : α → α → Bool) (heap : List α) : List α :=
  heapPopAllAux lt heap.length heap

end Heapq

/-- `PriorityItem`: wrapper for priority queue items.  The dataclass is
declared with `order=True`; `priority` and `index` are the compare
fields, `item` and `entry_time` are excluded from comparisons. -/
structure PriorityItem where
  priority : ℚ
  index : ℕ
  item : PyObj
  entry_time : ℚ
deriving DecidableEq, Repr

instance : Inhabited PriorityItem := ⟨⟨0, 0, ⟨0, 0⟩, 0⟩⟩

/-- The dataclass `__lt__`: lexicographic comparison of the compare
fields `(priority, index)`. -/
def pilt (a b : PriorityItem) : Bool :=
  decide (a.priority < b.priority) ||
    (decide (a.priority = b.priority) && decide (a.index < b.index))

/-- The dataclass `__eq__`: equality of the compare fields
`(priority, index)` (used by `list.remove`). -/
def pieq (a b : PriorityItem) : Bool :=
  decide (a.priority = b.priority) && decide (a.index = b.index)

/-- The heap-backed `PriorityQueue`.  `priority_fn` is the caller-supplied
priority-extraction function (`none` models the default `lambda x: 0.0`);
the source registers no callback hooks on this class, so operations fire
no callback events. -/
structure PriorityQueue where
  capacity : ℕ
  priority_fn : Option (PyObj → ℚ)
  heap : List PriorityItem
  counter : ℕ
  stats : QueueStats

/-- `PriorityQueue.__init__`. -/
def PriorityQueue.init (capacity : ℕ) (priority_fn : Option (PyObj → ℚ)) :
    PriorityQueue :=
  ⟨capacity, priority_fn, [], 0, QueueStats.init⟩

/-- `PriorityQueue.is_empty`. -/
def PriorityQueue.is_empty (q : PriorityQueue) : Bool := q.heap.isEmpty

/-- `PriorityQueue.is_full`. -/
def PriorityQueue.is_full (q : PriorityQueue) : Bool :=
  if q.capacity = 0 then false else decide (q.capacity ≤ q.heap.length)

/-- `PriorityQueue.enqueue`: result, new state, and fired callbacks (the
source invokes no callbacks on this class, so the event list is always
empty). -/
def PriorityQueue.enqueue (q : PriorityQueue) (item : PyObj)
    (priority : Option ℚ) (now : ℚ) : Bool × PriorityQueue × List CbEvent :=
  if q.is_full then (false, q, [])
  else
    let p :=
      match priority with
      | some p => p
      | none =>
        match q.priority_fn with
        | some f => f item
        | none => 0
    let counter := q.counter + 1
    let entry : PriorityItem := ⟨p, counter, item, now⟩
    (true,
      { q with
        counter := counter
        heap := heappush pilt q.heap entry
        stats := q.stats.record_entry now },
      [])

/-- `PriorityQueue.dequeue`: result, new state, and fired callbacks
(always none in the source). -/
def PriorityQueue.dequeue (q : PriorityQueue) (now : ℚ) :
    Option PyObj × PriorityQueue × List CbEvent :=
  if q.is_empty then (none, q, [])
  else
    match heappop pilt q.heap with
    | none => (none, q, [])
    | some (entry, heap') =>
      let wait := now - entry.entry_time
      (some entry.item,
        { q with heap := heap', stats := q.stats.record_exit now wait },
        [])

/-- `PriorityQueue.peek`: `self._heap[0].item` behind an emptiness guard. -/
def PriorityQueue.peek (q : PriorityQueue) : Option PyObj :=
  q.heap.head?.map (·.item)

/-- `PriorityQueue._find_entry`: first wrapper in heap-array order whose
item matches by identity or value equality. -/
def PriorityQueue.find_entry (q : PriorityQueue) (item : PyObj) :
    Option PriorityItem :=
  q.heap.find? (fun e => pyMatch e.item item)

/-- `PriorityQueue.remove`: find the wrapper, `list.remove` the first
`==`-equal element, re-establish the heap invariant with `heapify`, and
record an exit with the wrapper's true wait time. -/
def PriorityQueue.remove (q : PriorityQueue) (item : PyObj) (now : ℚ) :
    Bool × PriorityQueue :=
  match q.find_entry item with
  | none => (false, q)
  | some entry =>
    let heap' := heapify pilt (q.heap.eraseP (fun e => pieq e entry))
    let wait := now - entry.entry_time
    (true, { q with heap := heap', stats := q.stats.record_exit now wait })

/-- `PriorityQueue.update_priority`: find the wrapper, `list.remove` it,
and push a fresh wrapper carrying the new priority, the next counter
value and the original entry time.  (Unlike `remove`, the source does not
`heapify` after `list.remove`.) -/
def PriorityQueue.update_priority (q : PriorityQueue) (item : PyObj)
    (new_priority : ℚ) : Bool × PriorityQueue :=
  match q.find_entry item with
  | none => (false, q)
  | some entry =>
    let heap1 := q.heap.eraseP (fun e => pieq e entry)
    let counter := q.counter + 1
    let new_entry : PriorityItem := ⟨new_priority, counter, item, entry.entry_time⟩
    (true, { q with counter := counter, heap := heappush pilt heap1 new_entry })

/-- A public priority-queue operation with its clock value. -/
inductive POp where
  | enq (item : PyObj) (priority : Option ℚ) (t : ℚ)
  | deq (t : ℚ)
  | rem (item : PyObj) (t : ℚ)
  | upd (item : PyObj) (priority : ℚ)
deriving Repr

/-- Apply one public operation to a priority queue (discarding outputs). -/
def PriorityQueue.step (q : PriorityQueue) (op : POp) : PriorityQueue :=
  match op with
  | POp.enq item p t => (q.enqueue item p t).2.1
  | POp.deq t => (q.dequeue t).2.1
  | POp.rem item t => (q.remove item t).2
  | POp.upd item p => (q.update_priority item p).2

/-- Run a sequence of public operations. -/
def PriorityQueue.run (q : PriorityQueue) (ops : List POp) : PriorityQueue :=
  ops.foldl PriorityQueue.step q

/-- Dequeue repeatedly until the queue reports empty, collecting the
returned items; `fuel ≥ q.heap.length` computes the full sequence. -/
def PriorityQueue.dequeueAllAux : ℕ → PriorityQueue → ℚ → List PyObj
  | 0, _, _ => []
  | fuel + 1, q, now =>
    match q.dequeue now with
    | (none, _, _) => []
    | (some item, q', _) => item :: PriorityQueue.dequeueAllAux fuel q' now

/-- The item sequence obtained by dequeuing the priority queue dry. -/
def PriorityQueue.dequeueAll (q : PriorityQueue) (now : ℚ) : List PyObj :=
  PriorityQueue.dequeueAllAux q.heap.length q now

/-- The binary-heap invariant maintained by the `heapq` routines: no
element compares strictly less than its parent. -/
def heapProp {α : Type} [Inhabited α] (lt : α → α → Bool) (l : List α) : Prop :=
  ∀ j, 0 < j → j < l.length →
    lt (l.getD j default) (l.getD (parentIdx j) default) = false

/-- Enqueue a list of `(item, priority, time)` jobs, each with an explicit
priority override. -/
def enqueueJobs (q : PriorityQueue) (jobs : List (PyObj × ℚ × ℚ)) : PriorityQueue :=
  jobs.foldl (fun q j => (q.enqueue j.1 (some j.2.1) j.2.2).2.1) q

/-- Enqueue a list of `(item, time)` jobs with no explicit priority
argument (so the priority function, or its `lambda x: 0.0` default, is
consulted). -/
def enqueueDefault (q : PriorityQueue) (jobs : List (PyObj × ℚ)) : PriorityQueue :=
  jobs.foldl (fun q j => (q.enqueue j.1 none j.2).2.1) q

/-- The wrappers a job list produces when enqueued with explicit
priorities into a queue whose counter is `c`: the k-th job is stamped
with sequence number `c + k + 1` and its enqueue time. -/
def expectedEntries : ℕ → List (PyObj × ℚ × ℚ) → List PriorityItem
  | _, [] => []
  | c, j :: rest => ⟨j.2.1, c + 1, j.1, j.2.2⟩ :: expectedEntries (c + 1) rest

/-- Statistics length synchronisation: the tracker's current length
agrees with the number of stored entries (FIFO queue). -/
def Queue.lenSync (q : Queue) : Prop :=
  q.stats.current_length = (q.entries.length : ℤ)

/-- Entries/exits bookkeeping: `current_length = entries - exits` (FIFO
queue). -/
def Queue.netSync (q : Queue) : Prop :=
  q.stats.current_length = (q.stats.entries : ℤ) - (q.stats.exits : ℤ)

/-- Statistics length synchronisation for the priority queue. -/
def PriorityQueue.lenSync (q : PriorityQueue) : Prop :=
  q.stats.current_length = (q.heap.length : ℤ)

/-- `current_length = entries - exits` for the priority queue. -/
def PriorityQueue.netSync (q : PriorityQueue) : Prop :=
  q.stats.current_length = (q.stats.entries : ℤ) - (q.stats.exits : ℤ)

/-! ### List index toolkit -/

section ListToolkit

variable {α : Type} [Inhabited α]

lemma getD_set_eq (l : List α) (i : ℕ) (x : α) (h : i < l.length) :
    (l.set i x).getD i default = x := by
  simp [List.getD_eq_getElem?_getD, List.getElem?_set_self h]

lemma getD_set_ne (l : List α) {i j : ℕ} (x : α) (h : i ≠ j) :
    (l.set i x).getD j default = l.getD j default := by
  simp [List.getD_eq_getElem?_getD, List.getElem?_set_ne h]

lemma set_getD_self (l : List α) {i : ℕ} (h : i < l.length) :
    l.set i (l.getD i default) = l := by
  apply List.ext_getElem?
  intro n
  rw [List.getElem?_set]
  split
  · rename_i hin
    subst hin
    simp [List.getD_eq_getElem l default h, h, List.getElem?_eq_getElem h]
  · rfl

lemma ms_set (l : List α) (i : ℕ) (x : α) (h : i < l.length) :
    ((l.set i x : List α) : Multiset α) + {l.getD i default} =
      (l : Multiset α) + {x} := by
  rw [List.getD_eq_getElem l default h, List.set_eq_take_cons_drop x h]
  conv_rhs => rw [← List.take_append_drop i l, ← List.getElem_cons_drop l i h]
  simp only [← Multiset.coe_add, ← Multiset.cons_coe, Multiset.add_cons,
    ← Multiset.singleton_add]
  abel

lemma getD_append_left (l₁ l₂ : List α) {i : ℕ} (h : i < l₁.length) :
    (l₁ ++ l₂).getD i default = l₁.getD i default := by
  simp [List.getD_eq_getElem?_getD, List.getElem?_append, h]

lemma getD_append_last (l : List α) (x : α) :
    (l ++ [x]).getD l.length default = x := by
  simp [List.getD_eq_getElem?_getD, List.getElem?_append]

lemma getD_dropLast (l : List α) {i : ℕ} (h : i < l.length - 1) :
    l.dropLast.getD i default = l.getD i default := by
  have hl : i < l.length := by omega
  rw [List.dropLast_eq_take]
  simp [List.getD_eq_getElem?_getD, List.getElem?_take, h,
    List.getElem?_eq_getElem hl]

lemma set_append_length (l : List α) (a b : α) :
    (l ++ [a]).set l.length b = l ++ [b] := by
  induction l with
  | nil => rfl
  | cons h t ih => simp [ih]

lemma ms_dropLast_concat (l : List α) (h : l ≠ []) :
    (l : Multiset α) = (l.dropLast : Multiset α) + {l.getD (l.length - 1) default} := by
  conv_lhs => rw [← List.dropLast_concat_getLast h]
  have hlen : l.length - 1 < l.length := by
    cases l with
    | nil => exact absurd rfl h
    | cons a t => simp
  rw [List.getD_eq_getElem l default hlen, List.getLast_eq_getElem]
  simp [← Multiset.coe_add]

end ListToolkit

/-! ### Heap index arithmetic -/

lemma parentIdx_lt {j : ℕ} (h : 0 < j) : parentIdx j < j := by
  unfold parentIdx
  omega

lemma parentIdx_le (j : ℕ) : parentIdx j ≤ j := by
  unfold parentIdx
  omega

lemma child_cases {j p : ℕ} (h0 : 0 < j) (hp : parentIdx j = p) :
    j = 2 * p + 1 ∨ j = 2 * p + 2 := by
  unfold parentIdx at hp
  omega

lemma parentIdx_left (p : ℕ) : parentIdx (2 * p + 1) = p := by
  unfold parentIdx
  omega

lemma parentIdx_right (p : ℕ) : parentIdx (2 * p + 2) = p := by
  unfold parentIdx
  omega

/-! ### Order facts for the `PriorityItem` comparison -/

lemma pilt_iff (a b : PriorityItem) :
    pilt a b = true ↔
      a.priority < b.priority ∨ (a.priority = b.priority ∧ a.index < b.index) := by
  simp [pilt]

lemma pilt_false_iff (a b : PriorityItem) :
    pilt a b = false ↔
      b.priority < a.priority ∨ (b.priority = a.priority ∧ b.index ≤ a.index) := by
  rw [← Bool.not_eq_true, pilt_iff]
  constructor
  · intro h
    push_neg at h
    rcases lt_trichotomy a.priority b.priority with hlt | heq | hgt
    · exact absurd hlt (not_lt.mpr h.1)
    · exact Or.inr ⟨heq.symm, h.2 heq⟩
    · exact Or.inl hgt
  · intro h
    push_neg
    rcases h with h | ⟨heq, hle⟩
    · refine ⟨le_of_lt h, fun he => ?_⟩
      rw [he] at h
      exact absurd h (lt_irrefl _)
    · exact ⟨le_of_eq heq, fun _ => hle⟩

lemma pilt_irr (a : PriorityItem) : pilt a a = false := by
  rw [pilt_false_iff]
  exact Or.inr ⟨rfl, le_rfl⟩

lemma pilt_asymm (a b : PriorityItem) (h : pilt a b = true) : pilt b a = false := by
  rw [pilt_iff] at h
  rw [pilt_false_iff]
  rcases h with h | ⟨heq, hidx⟩
  · exact Or.inl h
  · exact Or.inr ⟨heq, le_of_lt hidx⟩

lemma pilt_lttrans (a b c : PriorityItem) (hab : pilt a b = true)
    (hbc : pilt b c = true) : pilt a c = true := by
  rw [pilt_iff] at hab hbc ⊢
  rcases hab with h1 | ⟨e1, i1⟩ <;> rcases hbc with h2 | ⟨e2, i2⟩
  · exact Or.inl (lt_trans h1 h2)
  · exact Or.inl (e2 ▸ h1)
  · exact Or.inl (e1 ▸ h2)
  · exact Or.inr ⟨e1.trans e2, lt_trans i1 i2⟩

lemma pilt_letrans (a b c : PriorityItem) (hba : pilt b a = false)
    (hcb : pilt c b = false) : pilt c a = false := by
  rw [pilt_false_iff] at hba hcb ⊢
  rcases hba with h1 | ⟨e1, i1⟩ <;> rcases hcb with h2 | ⟨e2, i2⟩
  · exact Or.inl (lt_trans h1 h2)
  · exact Or.inl (e2 ▸ h1)
  · exact Or.inl (e1 ▸ h2)
  · exact Or.inr ⟨e1.trans e2, le_trans i1 i2⟩

/-! ### Length and content preservation of the heap routines -/

section HeapCore

variable {α : Type} [Inhabited α] (lt : α → α → Bool)

lemma siftdownAux_length (x : α) :
    ∀ (fuel : ℕ) (heap : List α) (startpos pos : ℕ),
      (siftdownAux lt x fuel heap startpos pos).length = heap.length := by
  intro fuel
  induction fuel with
  | zero =>
    intro heap startpos pos
    simp [siftdownAux]
  | succ n ih =>
    intro heap startpos pos
    simp only [siftdownAux]
    split_ifs
    · rw [ih]
      simp
    · simp
    · simp

lemma siftupAux_length (x : α) :
    ∀ (fuel : ℕ) (heap : List α) (startpos pos : ℕ),
      (siftupAux lt x fuel heap startpos pos).length = heap.length := by
  intro fuel
  induction fuel with
  | zero =>
    intro heap startpos pos
    simp [siftupAux, siftdownAux_length]
  | succ n ih =>
    intro heap startpos pos
    simp only [siftupAux]
    split_ifs
    · rw [ih]
      simp
    · rw [ih]
      simp
    · simp [siftdownAux_length]

lemma heappush_length (heap : List α) (x : α) :
    (heappush lt heap x).length = heap.length + 1 := by
  simp [heappush, siftdown, siftdownAux_length]

lemma heappop_length {heap : List α} {m : α} {rest : List α}
    (h : heappop lt heap = some (m, rest)) :
    rest.length = heap.length - 1 := by
  match heap, h with
  | [x], h =>
    simp only [heappop, Option.some.injEq, Prod.mk.injEq] at h
    simp [← h.2]
  | a :: b :: t, h =>
    simp only [heappop, Option.some.injEq, Prod.mk.injEq] at h
    rw [← h.2]
    simp [siftup, siftupAux_length]

lemma heappop_nil : heappop lt ([] : List α) = none := rfl

lemma heappop_isSome {heap : List α} (h : heap ≠ []) :
    ∃ m rest, heappop lt heap = some (m, rest) := by
  match heap with
  | [x] => exact ⟨x, [], rfl⟩
  | a :: b :: t => exact ⟨_, _, rfl⟩

lemma heapify_length (heap : List α) :
    (heapify lt heap).length = heap.length := by
  unfold heapify
  generalize (List.range (heap.length / 2)).reverse = idxs
  induction idxs generalizing heap with
  | nil => rfl
  | cons i rest ih =>
    simp only [List.foldl_cons]
    rw [ih]
    simp [siftup, siftupAux_length]

lemma ms_set_set_swapout (heap : List α) (pos c : ℕ) (x : α)
    (hpos : pos < heap.length) (hc : c < heap.length) (hne : pos ≠ c) :
    (((heap.set pos (heap.getD c default)).set c x : List α) : Multiset α) =
      ((heap.set pos x : List α) : Multiset α) := by
  have h1eq := ms_set (heap.set pos (heap.getD c default)) c x (by simpa using hc)
  rw [getD_set_ne heap (heap.getD c default) hne] at h1eq
  have h2eq := ms_set heap pos (heap.getD c default) hpos
  have h3eq := ms_set heap pos x hpos
  have key :
      (((heap.set pos (heap.getD c default)).set c x : List α) : Multiset α) +
        ({heap.getD c default} + {heap.getD pos default}) =
      ((heap.set pos x : List α) : Multiset α) +
        ({heap.getD c default} + {heap.getD pos default}) := by
    calc (((heap.set pos (heap.getD c default)).set c x : List α) : Multiset α) +
          ({heap.getD c default} + {heap.getD pos default})
        = ((((heap.set pos (heap.getD c default)).set c x : List α) : Multiset α) +
            {heap.getD c default}) + {heap.getD pos default} := by abel
      _ = (((heap.set pos (heap.getD c default) : List α) : Multiset α) +
            {x}) + {heap.getD pos default} := by rw [h1eq]
      _ = (((heap.set pos (heap.getD c default) : List α) : Multiset α) +
            {heap.getD pos default}) + {x} := by abel
      _ = ((heap : Multiset α) + {heap.getD c default}) + {x} := by rw [h2eq]
      _ = ((heap : Multiset α) + {x}) + {heap.getD c default} := by abel
      _ = (((heap.set pos x : List α) : Multiset α) + {heap.getD pos default}) +
            {heap.getD c default} := by rw [h3eq]
      _ = ((heap.set pos x : List α) : Multiset α) +
            ({heap.getD c default} + {heap.getD pos default}) := by abel
  exact add_right_cancel key

lemma siftdownAux_ms (x : α) :
    ∀ (fuel : ℕ) (heap : List α) (startpos pos : ℕ), pos < heap.length →
      ((siftdownAux lt x fuel heap startpos pos : List α) : Multiset α) =
        ((heap.set pos x : List α) : Multiset α) := by
  intro fuel
  induction fuel with
  | zero =>
    intro heap startpos pos _
    simp [siftdownAux]
  | succ n ih =>
    intro heap startpos pos hpos
    simp only [siftdownAux]
    split_ifs with h1 h2
    · have hpplt : parentIdx pos < pos := parentIdx_lt (by omega)
      have hpplen : parentIdx pos < heap.length := by omega
      rw [ih _ _ _ (by simpa using hpplen)]
      exact ms_set_set_swapout heap pos (parentIdx pos) x hpos hpplen (by omega)
    · rfl
    · rfl

lemma siftupAux_ms (x : α) :
    ∀ (fuel : ℕ) (heap : List α) (startpos pos : ℕ), pos < heap.length →
      ((siftupAux lt x fuel heap startpos pos : List α) : Multiset α) =
        ((heap.set pos x : List α) : Multiset α) := by
  intro fuel
  induction fuel with
  | zero =>
    intro heap startpos pos hpos
    simp only [siftupAux]
    rw [siftdownAux_ms lt x pos _ startpos pos (by simpa using hpos)]
    rw [List.set_set]
  | succ n ih =>
    intro heap startpos pos hpos
    simp only [siftupAux]
    split_ifs with h1 h2
    · simp only [Bool.and_eq_true, decide_eq_true_eq] at h2
      have hr : 2 * pos + 1 + 1 < heap.length := h2.1
      rw [ih _ _ _ (by simpa using hr)]
      exact ms_set_set_swapout heap pos (2 * pos + 1 + 1) x hpos hr (by omega)
    · rw [ih _ _ _ (by simpa using h1)]
      exact ms_set_set_swapout heap pos (2 * pos + 1) x hpos h1 (by omega)
    · rw [siftdownAux_ms lt x pos _ startpos pos (by simpa using hpos)]
      rw [List.set_set]

lemma siftdownAux_heapProp
    (hasymm : ∀ a b, lt a b = true → lt b a = false)
    (hlttrans : ∀ a b c, lt a b = true → lt b c = true → lt a c = true)
    (hletrans : ∀ a b c, lt b a = false → lt c b = false → lt c a = false)
    (x : α) :
    ∀ (fuel pos : ℕ) (heap : List α), pos ≤ fuel → pos < heap.length →
      (∀ j, 0 < j → j < heap.length → j ≠ pos →
        lt ((heap.set pos x).getD j default)
          ((heap.set pos x).getD (parentIdx j) default) = false) →
      (∀ j, 0 < pos → 0 < j → j < heap.length → parentIdx j = pos →
        lt ((heap.set pos x).getD j default)
          (heap.getD (parentIdx pos) default) = false) →
      heapProp lt (siftdownAux lt x fuel heap 0 pos) := by
  intro fuel
  induction fuel with
  | zero =>
    intro pos heap hf hlen hA hB
    have hp0 : pos = 0 := by omega
    subst hp0
    simp only [siftdownAux]
    intro j hj0 hjlen
    rw [List.length_set] at hjlen
    exact hA j hj0 hjlen (by omega)
  | succ n ih =>
    intro pos heap hf hlen hA hB
    by_cases hp0 : 0 < pos
    · simp only [siftdownAux]
      rw [if_pos hp0]
      have hpplt : parentIdx pos < pos := parentIdx_lt hp0
      have hpplen : parentIdx pos < heap.length := by omega
      have hppne : parentIdx pos ≠ pos := by omega
      split_ifs with hcmp
      · -- `newitem < parent`: the parent moves down and we recurse
        refine ih (parentIdx pos) (heap.set pos (heap.getD (parentIdx pos) default))
          (by omega) (by simpa using hpplen) ?_ ?_
        · -- all edges away from the new hole hold in the filled array
          intro j hj0 hjlen hjne
          rw [List.length_set] at hjlen
          by_cases hjpos : j = pos
          · rw [hjpos, getD_set_ne (heap.set pos (heap.getD (parentIdx pos) default)) x hppne,
              getD_set_eq heap pos (heap.getD (parentIdx pos) default) hlen,
              getD_set_eq (heap.set pos (heap.getD (parentIdx pos) default))
                (parentIdx pos) x (by simpa using hpplen)]
            exact hasymm _ _ hcmp
          · rw [getD_set_ne (heap.set pos (heap.getD (parentIdx pos) default)) x
                (Ne.symm hjne),
              getD_set_ne heap (heap.getD (parentIdx pos) default) (Ne.symm hjpos)]
            by_cases hpj : parentIdx j = parentIdx pos
            · rw [hpj, getD_set_eq (heap.set pos (heap.getD (parentIdx pos) default))
                (parentIdx pos) x (by simpa using hpplen)]
              have hjA := hA j hj0 hjlen hjpos
              rw [getD_set_ne heap x (Ne.symm hjpos), hpj,
                getD_set_ne heap x (Ne.symm hppne)] at hjA
              cases hq : lt (heap.getD j default) x
              · rfl
              · have hc := hlttrans _ _ _ hq hcmp
                rw [hjA] at hc
                exact absurd hc Bool.false_ne_true
            · by_cases hpj2 : parentIdx j = pos
              · rw [hpj2, getD_set_ne (heap.set pos (heap.getD (parentIdx pos) default)) x
                    hppne,
                  getD_set_eq heap pos (heap.getD (parentIdx pos) default) hlen]
                have hjB := hB j hp0 hj0 hjlen hpj2
                rw [getD_set_ne heap x (Ne.symm hjpos)] at hjB
                exact hjB
              · rw [getD_set_ne (heap.set pos (heap.getD (parentIdx pos) default)) x
                    (Ne.symm hpj),
                  getD_set_ne heap (heap.getD (parentIdx pos) default) (Ne.symm hpj2)]
                have hjA := hA j hj0 hjlen hjpos
                rw [getD_set_ne heap x (Ne.symm hjpos),
                  getD_set_ne heap x (Ne.symm hpj2)] at hjA
                exact hjA
        · -- children of the new hole stay above the moved-down parent
          intro j hpp0 hj0 hjlen hpj
          rw [List.length_set] at hjlen
          have hgpne : parentIdx (parentIdx pos) ≠ pos := by
            have := parentIdx_le (parentIdx pos)
            omega
          rw [getD_set_ne heap (heap.getD (parentIdx pos) default) (Ne.symm hgpne)]
          by_cases hjpos : j = pos
          · rw [hjpos, getD_set_ne (heap.set pos (heap.getD (parentIdx pos) default)) x hppne,
              getD_set_eq heap pos (heap.getD (parentIdx pos) default) hlen]
            have hpA := hA (parentIdx pos) hpp0 hpplen hppne
            rw [getD_set_ne heap x (Ne.symm hppne),
              getD_set_ne heap x (Ne.symm hgpne)] at hpA
            exact hpA
          · have hjgt : parentIdx pos < j := by
              have := parentIdx_lt hj0
              omega
            have hjne_pp : j ≠ parentIdx pos := by omega
            rw [getD_set_ne (heap.set pos (heap.getD (parentIdx pos) default)) x
                (Ne.symm hjne_pp),
              getD_set_ne heap (heap.getD (parentIdx pos) default) (Ne.symm hjpos)]
            have h1 := hA j hj0 hjlen hjpos
            rw [getD_set_ne heap x (Ne.symm hjpos), hpj,
              getD_set_ne heap x (Ne.symm hppne)] at h1
            have h2 := hA (parentIdx pos) hpp0 hpplen hppne
            rw [getD_set_ne heap x (Ne.symm hppne),
              getD_set_ne heap x (Ne.symm hgpne)] at h2
            exact hletrans _ _ _ h2 h1
      · -- `newitem` rests at `pos`
        intro j hj0 hjlen
        rw [List.length_set] at hjlen
        by_cases hjpos : j = pos
        · rw [Bool.not_eq_true] at hcmp
          rw [hjpos, getD_set_eq heap pos x hlen]
          rw [hjpos] at hj0
          rw [getD_set_ne heap x (Ne.symm hppne)]
          exact hcmp
        · exact hA j hj0 hjlen hjpos
    · have hpos0 : pos = 0 := by omega
      subst hpos0
      simp only [siftdownAux]
      rw [if_neg (by omega)]
      intro j hj0 hjlen
      rw [List.length_set] at hjlen
      exact hA j hj0 hjlen (by omega)

lemma heappush_ms (heap : List α) (x : α) :
    ((heappush lt heap x : List α) : Multiset α) = (heap : Multiset α) + {x} := by
  unfold heappush siftdown
  rw [getD_append_last]
  rw [siftdownAux_ms lt x heap.length (heap ++ [x]) 0 heap.length (by simp)]
  rw [set_append_length]
  simp [← Multiset.coe_add]

lemma heappush_heapProp
    (hasymm : ∀ a b, lt a b = true → lt b a = false)
    (hlttrans : ∀ a b c, lt a b = true → lt b c = true → lt a c = true)
    (hletrans : ∀ a b c, lt b a = false → lt c b = false → lt c a = false)
    (heap : List α) (x : α) (hp : heapProp lt heap) :
    heapProp lt (heappush lt heap x) := by
  unfold heappush siftdown
  rw [getD_append_last]
  apply siftdownAux_heapProp lt hasymm hlttrans hletrans x heap.length heap.length
    (heap ++ [x]) le_rfl (by simp)
  · intro j hj0 hjlen hjne
    rw [List.length_append, List.length_singleton] at hjlen
    have hjlt : j < heap.length := by omega
    rw [set_append_length]
    rw [getD_append_left heap [x] hjlt,
      getD_append_left heap [x] (lt_of_le_of_lt (parentIdx_le j) hjlt)]
    exact hp j hj0 hjlt
  · intro j hpos0 hj0 hjlen hpj
    exfalso
    have := child_cases hj0 hpj
    rw [List.length_append, List.length_singleton] at hjlen
    omega

lemma siftupAux_terminal
    (hasymm : ∀ a b, lt a b = true → lt b a = false)
    (hlttrans : ∀ a b c, lt a b = true → lt b c = true → lt a c = true)
    (hletrans : ∀ a b c, lt b a = false → lt c b = false → lt c a = false)
    (x : α) (pos : ℕ) (heap : List α) (hpos : pos < heap.length)
    (hnc : heap.length ≤ 2 * pos + 1) (hp : heapProp lt heap) :
    heapProp lt (siftdownAux lt x pos (heap.set pos x) 0 pos) := by
  apply siftdownAux_heapProp lt hasymm hlttrans hletrans x pos pos (heap.set pos x)
    le_rfl (by simpa using hpos)
  · intro j hj0 hjlen hjne
    rw [List.length_set] at hjlen
    rw [List.set_set]
    by_cases hpj : parentIdx j = pos
    · exfalso
      have := child_cases hj0 hpj
      omega
    · rw [getD_set_ne heap x (Ne.symm hjne), getD_set_ne heap x (Ne.symm hpj)]
      exact hp j hj0 hjlen
  · intro j hpos0 hj0 hjlen hpj
    exfalso
    rw [List.length_set] at hjlen
    have := child_cases hj0 hpj
    omega

lemma heapProp_set_child
    (heap : List α) (pos c : ℕ) (hc : c < heap.length)
    (hedges : ∀ j, 0 < j → j < heap.length → parentIdx j ≠ pos →
      lt (heap.getD j default) (heap.getD (parentIdx j) default) = false)
    (hup : 0 < pos →
      lt (heap.getD c default) (heap.getD (parentIdx pos) default) = false)
    (hsel : ∀ j, 0 < j → j < heap.length → parentIdx j = pos →
      lt (heap.getD j default) (heap.getD c default) = false) :
    heapProp lt (heap.set pos (heap.getD c default)) := by
  intro j hj0 hjlen
  rw [List.length_set] at hjlen
  by_cases hjpos : j = pos
  · have hppne : parentIdx pos ≠ pos := by
      have := parentIdx_lt (hjpos ▸ hj0)
      omega
    rw [hjpos, getD_set_eq heap pos _ (hjpos ▸ hjlen),
      getD_set_ne heap _ (Ne.symm hppne)]
    exact hup (hjpos ▸ hj0)
  · by_cases hpj : parentIdx j = pos
    · have hposlen : pos < heap.length := by
        have := parentIdx_le j
        omega
      rw [getD_set_ne heap _ (Ne.symm hjpos), hpj, getD_set_eq heap pos _ hposlen]
      exact hsel j hj0 hjlen hpj
    · rw [getD_set_ne heap _ (Ne.symm hjpos), getD_set_ne heap _ (Ne.symm hpj)]
      exact hedges j hj0 hjlen hpj

lemma siftupAux_heapProp_of_full
    (hirr : ∀ a, lt a a = false)
    (hasymm : ∀ a b, lt a b = true → lt b a = false)
    (hlttrans : ∀ a b c, lt a b = true → lt b c = true → lt a c = true)
    (hletrans : ∀ a b c, lt b a = false → lt c b = false → lt c a = false)
    (x : α) :
    ∀ (fuel pos : ℕ) (heap : List α), pos < heap.length →
      heap.length ≤ fuel + pos + 1 → heapProp lt heap →
      heapProp lt (siftupAux lt x fuel heap 0 pos) := by
  intro fuel
  induction fuel with
  | zero =>
    intro pos heap hpos hflen hp
    simp only [siftupAux]
    exact siftupAux_terminal lt hasymm hlttrans hletrans x pos heap hpos (by omega) hp
  | succ n ih =>
    intro pos heap hpos hflen hp
    simp only [siftupAux]
    split_ifs with h1 h2
    · -- right child is selected
      simp only [Bool.and_eq_true, decide_eq_true_eq, Bool.not_eq_true'] at h2
      obtain ⟨hr, hlr⟩ := h2
      refine ih (2 * pos + 1 + 1) _ (by simpa using hr) (by simp; omega) ?_
      apply heapProp_set_child lt heap pos (2 * pos + 1 + 1) hr
      · intro j hj0 hjlen _
        exact hp j hj0 hjlen
      · intro hpos0
        have h1p := hp (2 * pos + 1 + 1) (by omega) hr
        rw [show parentIdx (2 * pos + 1 + 1) = pos from parentIdx_right pos] at h1p
        have h2p := hp pos hpos0 hpos
        exact hletrans _ _ _ h2p h1p
      · intro j hj0 hjlen hpj
        rcases child_cases hj0 hpj with hj | hj
        · rw [hj]
          exact hlr
        · rw [hj]
          exact hirr _
    · -- left child is selected
      simp only [Bool.and_eq_true, decide_eq_true_eq, Bool.not_eq_true',
        not_and] at h2
      refine ih (2 * pos + 1) _ (by simpa using h1) (by simp; omega) ?_
      apply heapProp_set_child lt heap pos (2 * pos + 1) h1
      · intro j hj0 hjlen _
        exact hp j hj0 hjlen
      · intro hpos0
        have h1p := hp (2 * pos + 1) (by omega) h1
        rw [show parentIdx (2 * pos + 1) = pos from parentIdx_left pos] at h1p
        have h2p := hp pos hpos0 hpos
        exact hletrans _ _ _ h2p h1p
      · intro j hj0 hjlen hpj
        rcases child_cases hj0 hpj with hj | hj
        · rw [hj]
          exact hirr _
        · have hrlen : 2 * pos + 1 + 1 < heap.length := by omega
          have := h2 hrlen
          rw [Bool.not_eq_false] at this
          rw [hj]
          exact hasymm _ _ this
    · exact siftupAux_terminal lt hasymm hlttrans hletrans x pos heap hpos (by omega) hp

lemma siftup_heapProp_zero
    (hirr : ∀ a, lt a a = false)
    (hasymm : ∀ a b, lt a b = true → lt b a = false)
    (hlttrans : ∀ a b c, lt a b = true → lt b c = true → lt a c = true)
    (hletrans : ∀ a b c, lt b a = false → lt c b = false → lt c a = false)
    (heap : List α) (hne : heap ≠ [])
    (hAH : ∀ j, 0 < j → j < heap.length → parentIdx j ≠ 0 →
      lt (heap.getD j default) (heap.getD (parentIdx j) default) = false) :
    heapProp lt (siftup lt heap 0) := by
  unfold siftup
  obtain ⟨m, hm⟩ : ∃ m, heap.length = m + 1 := by
    cases heap with
    | nil => exact absurd rfl hne
    | cons a t => exact ⟨t.length, rfl⟩
  rw [hm]
  simp only [siftupAux]
  split_ifs with h1 h2
  · simp only [Bool.and_eq_true, decide_eq_true_eq, Bool.not_eq_true'] at h2
    obtain ⟨hr, hlr⟩ := h2
    apply siftupAux_heapProp_of_full lt hirr hasymm hlttrans hletrans _ m
      (2 * 0 + 1 + 1) _ (by simpa using hr) (by simp; omega)
    apply heapProp_set_child lt heap 0 (2 * 0 + 1 + 1) hr
    · intro j hj0 hjlen hpj
      exact hAH j hj0 hjlen hpj
    · intro h0
      exact absurd h0 (lt_irrefl 0)
    · intro j hj0 hjlen hpj
      rcases child_cases hj0 hpj with hj | hj
      · rw [hj]
        exact hlr
      · rw [hj]
        exact hirr _
  · simp only [Bool.and_eq_true, decide_eq_true_eq, Bool.not_eq_true',
      not_and] at h2
    apply siftupAux_heapProp_of_full lt hirr hasymm hlttrans hletrans _ m
      (2 * 0 + 1) _ (by simpa using h1) (by simp; omega)
    apply heapProp_set_child lt heap 0 (2 * 0 + 1) h1
    · intro j hj0 hjlen hpj
      exact hAH j hj0 hjlen hpj
    · intro h0
      exact absurd h0 (lt_irrefl 0)
    · intro j hj0 hjlen hpj
      rcases child_cases hj0 hpj with hj | hj
      · rw [hj]
        exact hirr _
      · have hrlen : 2 * 0 + 1 + 1 < heap.length := by omega
        have := h2 hrlen
        rw [Bool.not_eq_false] at this
        rw [hj]
        exact hasymm _ _ this
  · have hp : heapProp lt heap := by
      intro j hj0 hjlen
      omega
    exact siftupAux_terminal lt hasymm hlttrans hletrans _ 0 heap (by omega) (by omega) hp

lemma heapProp_getD_zero_le
    (hirr : ∀ a, lt a a = false)
    (hletrans : ∀ a b c, lt b a = false → lt c b = false → lt c a = false)
    (heap : List α) (hp : heapProp lt heap) :
    ∀ j, j < heap.length → lt (heap.getD j default) (heap.getD 0 default) = false := by
  intro j
  induction j using Nat.strong_induction_on with
  | _ j ih =>
    intro hjlen
    rcases Nat.eq_zero_or_pos j with h0 | h0
    · subst h0
      exact hirr _
    · have hplt := parentIdx_lt h0
      have hedge := hp j h0 hjlen
      have hih := ih (parentIdx j) hplt (by omega)
      exact hletrans _ _ _ hih hedge

lemma heapProp_mem_le
    (hirr : ∀ a, lt a a = false)
    (hletrans : ∀ a b c, lt b a = false → lt c b = false → lt c a = false)
    (heap : List α) (hp : heapProp lt heap) :
    ∀ y ∈ heap, lt y (heap.getD 0 default) = false := by
  intro y hy
  obtain ⟨n, hn, hyn⟩ := List.mem_iff_getElem.mp hy
  rw [← hyn, ← List.getD_eq_getElem heap default hn]
  exact heapProp_getD_zero_le lt hirr hletrans heap hp n hn

lemma heappop_big_heapProp
    (hirr : ∀ a, lt a a = false)
    (hasymm : ∀ a b, lt a b = true → lt b a = false)
    (hlttrans : ∀ a b c, lt a b = true → lt b c = true → lt a c = true)
    (hletrans : ∀ a b c, lt b a = false → lt c b = false → lt c a = false)
    (heap : List α) (h2 : 2 ≤ heap.length) (hp : heapProp lt heap) :
    heapProp lt
      (siftup lt (heap.dropLast.set 0 (heap.getD (heap.length - 1) default)) 0) := by
  apply siftup_heapProp_zero lt hirr hasymm hlttrans hletrans
  · intro hnil
    have := congrArg List.length hnil
    simp at this
    omega
  · intro j hj0 hjlen hpj
    rw [List.length_set, List.length_dropLast] at hjlen
    have hplt : parentIdx j < j := parentIdx_lt hj0
    rw [getD_set_ne heap.dropLast _ (by omega : (0 : ℕ) ≠ j),
      getD_set_ne heap.dropLast _ (Ne.symm hpj),
      getD_dropLast heap hjlen, getD_dropLast heap (by omega)]
    exact hp j hj0 (by omega)

lemma heappop_big_ms (heap : List α) (h2 : 2 ≤ heap.length) :
    ((siftup lt (heap.dropLast.set 0 (heap.getD (heap.length - 1) default)) 0 :
        List α) : Multiset α) + {heap.getD 0 default} = (heap : Multiset α) := by
  have h0len : 0 < heap.dropLast.length := by
    rw [List.length_dropLast]
    omega
  unfold siftup
  rw [siftupAux_ms lt _ _ _ 0 0 (by simpa using h0len)]
  rw [set_getD_self _ (by simpa using h0len)]
  have hms := ms_set heap.dropLast 0 (heap.getD (heap.length - 1) default) h0len
  rw [getD_dropLast heap (by omega)] at hms
  rw [hms]
  have hconcat := ms_dropLast_concat heap (by
    intro hnil
    rw [hnil] at h2
    simp at h2)
  rw [hconcat]

lemma heappop_spec
    (hirr : ∀ a, lt a a = false)
    (hasymm : ∀ a b, lt a b = true → lt b a = false)
    (hlttrans : ∀ a b c, lt a b = true → lt b c = true → lt a c = true)
    (hletrans : ∀ a b c, lt b a = false → lt c b = false → lt c a = false)
    (heap : List α) (hp : heapProp lt heap) (hne : heap ≠ []) :
    ∃ rest, heappop lt heap = some (heap.getD 0 default, rest) ∧
      heapProp lt rest ∧
      (heap : Multiset α) = heap.getD 0 default ::ₘ (rest : Multiset α) := by
  match heap, hne with
  | [x], _ =>
    have hempty : heapProp lt ([] : List α) := fun j hj0 hjlen => absurd hjlen (by simp)
    exact ⟨[], rfl, hempty, by simp⟩
  | a :: b :: t, _ =>
    have h2 : 2 ≤ (a :: b :: t).length := by
      simp
    refine ⟨_, rfl, ?_, ?_⟩
    · exact heappop_big_heapProp lt hirr hasymm hlttrans hletrans _ h2 hp
    · have := heappop_big_ms lt (a :: b :: t) h2
      rw [← this, add_comm, Multiset.singleton_add]

lemma heapPopAllAux_spec
    (hirr : ∀ a, lt a a = false)
    (hasymm : ∀ a b, lt a b = true → lt b a = false)
    (hlttrans : ∀ a b c, lt a b = true → lt b c = true → lt a c = true)
    (hletrans : ∀ a b c, lt b a = false → lt c b = false → lt c a = false) :
    ∀ (fuel : ℕ) (heap : List α), heap.length ≤ fuel → heapProp lt heap →
      ((heapPopAllAux lt fuel heap : List α) : Multiset α) = (heap : Multiset α) ∧
      List.Pairwise (fun a b => lt b a = false) (heapPopAllAux lt fuel heap) := by
  intro fuel
  induction fuel with
  | zero =>
    intro heap hlen hp
    have : heap = [] := List.length_eq_zero.mp (by omega)
    subst this
    simp [heapPopAllAux]
  | succ n ih =>
    intro heap hlen hp
    by_cases hne : heap = []
    · subst hne
      simp [heapPopAllAux, heappop_nil]
    · obtain ⟨rest, hpop, hrestp, hms⟩ :=
        heappop_spec lt hirr hasymm hlttrans hletrans heap hp hne
      simp only [heapPopAllAux, hpop]
      have hrl : rest.length = heap.length - 1 := heappop_length lt hpop
      have hrle : rest.length ≤ n := by
        have : 0 < heap.length := List.length_pos.mpr hne
        omega
      obtain ⟨ihms, ihpw⟩ := ih rest hrle hrestp
      refine ⟨?_, List.Pairwise.cons ?_ ihpw⟩
      · rw [← Multiset.cons_coe, ihms]
        exact hms.symm
      · intro y hy
        have hymem : y ∈ rest := by
          rw [← Multiset.mem_coe, ← ihms]
          exact Multiset.mem_coe.mpr hy
        have hyheap : y ∈ heap := by
          rw [← Multiset.mem_coe, hms]
          exact Multiset.mem_cons_of_mem (Multiset.mem_coe.mpr hymem)
        exact heapProp_mem_le lt hirr hletrans heap hp y hyheap

end HeapCore

/-! ### Priority-queue glue -/

lemma pyObjEq_refl (a : PyObj) : pyObjEq a a = true := by
  simp [pyObjEq]

lemma pyEntryEq_refl (e : QueueEntry) : pyEntryEq e e = true := by
  simp [pyEntryEq, pyObjEq]

lemma pieq_refl (e : PriorityItem) : pieq e e = true := by
  simp [pieq]

lemma dequeueAllAux_eq :
    ∀ (fuel : ℕ) (q : PriorityQueue) (now : ℚ),
      PriorityQueue.dequeueAllAux fuel q now =
        (heapPopAllAux pilt fuel q.heap).map (·.item) := by
  intro fuel
  induction fuel with
  | zero =>
    intro q now
    rfl
  | succ n ih =>
    intro q now
    simp only [PriorityQueue.dequeueAllAux, heapPopAllAux, PriorityQueue.dequeue]
    by_cases hne : q.heap = []
    · simp [PriorityQueue.is_empty, hne, heappop_nil]
    · obtain ⟨m, rest, hpop⟩ := heappop_isSome pilt hne
      have hie : q.is_empty = false := by
        simp [PriorityQueue.is_empty, List.isEmpty_iff, hne]
      simp only [hie, Bool.false_eq_true, if_false, hpop]
      simp [ih]

lemma PriorityQueue.dequeueAll_eq (q : PriorityQueue) (now : ℚ) :
    q.dequeueAll now = (heapPopAll pilt q.heap).map (·.item) := by
  unfold PriorityQueue.dequeueAll heapPopAll
  exact dequeueAllAux_eq q.heap.length q now

lemma pq_enqueue_not_full (q : PriorityQueue) (item : PyObj) (p : Option ℚ)
    (now : ℚ) (hfull : q.is_full = false) :
    q.enqueue item p now =
      (true,
        { q with
          counter := q.counter + 1
          heap := heappush pilt q.heap
            ⟨(match p with
              | some p => p
              | none =>
                match q.priority_fn with
                | some f => f item
                | none => 0), q.counter + 1, item, now⟩
          stats := q.stats.record_entry now },
        []) := by
  unfold PriorityQueue.enqueue
  rw [hfull]
  rfl

lemma expectedEntries_index_bounds :
    ∀ (jobs : List (PyObj × ℚ × ℚ)) (c : ℕ),
      ∀ w ∈ expectedEntries c jobs, c < w.index ∧ w.index ≤ c + jobs.length := by
  intro jobs
  induction jobs with
  | nil =>
    intro c w hw
    simp [expectedEntries] at hw
  | cons j rest ih =>
    intro c w hw
    simp only [expectedEntries, List.mem_cons] at hw
    rcases hw with rfl | hw
    · simp
    · have := ih (c + 1) w hw
      simp only [List.length_cons]
      omega

lemma expectedEntries_pairwise :
    ∀ (jobs : List (PyObj × ℚ × ℚ)) (c : ℕ),
      List.Pairwise (fun a b => a.index < b.index) (expectedEntries c jobs) := by
  intro jobs
  induction jobs with
  | nil =>
    intro c
    simp [expectedEntries]
  | cons j rest ih =>
    intro c
    simp only [expectedEntries]
    refine List.Pairwise.cons ?_ (ih (c + 1))
    intro w hw
    have := expectedEntries_index_bounds rest (c + 1) w hw
    simp only
    omega

lemma expectedEntries_length :
    ∀ (jobs : List (PyObj × ℚ × ℚ)) (c : ℕ),
      (expectedEntries c jobs).length = jobs.length := by
  intro jobs
  induction jobs with
  | nil =>
    intro c
    rfl
  | cons j rest ih =>
    intro c
    simp [expectedEntries, ih]

lemma enqueueJobs_spec :
    ∀ (jobs : List (PyObj × ℚ × ℚ)) (q : PriorityQueue),
      heapProp pilt q.heap →
      (q.capacity = 0 ∨ q.heap.length + jobs.length ≤ q.capacity) →
      heapProp pilt (enqueueJobs q jobs).heap ∧
      ((enqueueJobs q jobs).heap : Multiset PriorityItem) =
        (q.heap : Multiset PriorityItem) +
          (expectedEntries q.counter jobs : Multiset PriorityItem) ∧
      (enqueueJobs q jobs).counter = q.counter + jobs.length ∧
      (enqueueJobs q jobs).heap.length = q.heap.length + jobs.length := by
  intro jobs
  induction jobs with
  | nil =>
    intro q hp hcap
    simp [enqueueJobs, expectedEntries]
    exact hp
  | cons j rest ih =>
    intro q hp hcap
    have hfull : q.is_full = false := by
      unfold PriorityQueue.is_full
      rcases hcap with h | h
      · simp [h]
      · split_ifs with hc
        · rfl
        · simp only [List.length_cons] at h
          simp
          omega
    simp only [enqueueJobs, List.foldl_cons, pq_enqueue_not_full q j.1 (some j.2.1) j.2.2 hfull]
    have hstep := ih
      { q with
        counter := q.counter + 1
        heap := heappush pilt q.heap ⟨j.2.1, q.counter + 1, j.1, j.2.2⟩
        stats := q.stats.record_entry j.2.2 }
      (heappush_heapProp pilt pilt_asymm pilt_lttrans pilt_letrans q.heap _ hp)
      (by
        rcases hcap with h | h
        · exact Or.inl h
        · refine Or.inr ?_
          simp only [heappush_length, List.length_cons] at h ⊢
          omega)
    simp only [enqueueJobs] at hstep
    obtain ⟨h1, h2, h3, h4⟩ := hstep
    refine ⟨h1, ?_, ?_, ?_⟩
    · rw [h2]
      simp only [heappush_ms, expectedEntries, ← Multiset.cons_coe,
        ← Multiset.singleton_add]
      abel
    · rw [h3]
      simp only [List.length_cons]
      omega
    · rw [h4]
      simp only [heappush_length, List.length_cons]
      omega

/-! ### Operation equations -/

lemma Queue.enqueue_full {q : Queue} (h : q.is_full = true) (item : PyObj)
    (now : ℚ) : q.enqueue item now = (false, q, []) := by
  simp [Queue.enqueue, h]

lemma Queue.enqueue_not_full {q : Queue} (h : q.is_full = false) (item : PyObj)
    (now : ℚ) :
    q.enqueue item now =
      (true,
        { q with
          entries := q.entries ++ [⟨item, now⟩]
          stats := q.stats.record_entry now },
        if q.has_on_enqueue then [CbEvent.enq item] else []) := by
  simp [Queue.enqueue, h]

lemma Queue.dequeue_nil {q : Queue} (h : q.entries = []) (now : ℚ) :
    q.dequeue now = (none, q, []) := by
  unfold Queue.dequeue
  rw [h]

lemma Queue.dequeue_cons {q : Queue} {e : QueueEntry} {rest : List QueueEntry}
    (h : q.entries = e :: rest) (now : ℚ) :
    q.dequeue now =
      (some e.item,
        { q with
          entries := rest
          stats := q.stats.record_exit now (now - e.entry_time) },
        if q.has_on_dequeue then [CbEvent.deq e.item] else []) := by
  unfold Queue.dequeue
  rw [h]

lemma Queue.remove_none {q : Queue} {item : PyObj}
    (h : q.entries.find? (fun e => pyMatch e.item item) = none) (now : ℚ) :
    q.remove item now = (false, q) := by
  unfold Queue.remove
  rw [h]

lemma Queue.remove_some {q : Queue} {item : PyObj} {e : QueueEntry}
    (h : q.entries.find? (fun e => pyMatch e.item item) = some e) (now : ℚ) :
    q.remove item now =
      (true,
        { q with
          entries := q.entries.eraseP (fun e2 => pyEntryEq e2 e)
          stats := q.stats.record_exit now (now - e.entry_time) }) := by
  unfold Queue.remove
  rw [h]

lemma Queue.step_clear_eq (q : Queue) : q.step QOp.clear = q := rfl

lemma pq_enqueue_full {q : PriorityQueue} (h : q.is_full = true)
    (item : PyObj) (p : Option ℚ) (now : ℚ) :
    q.enqueue item p now = (false, q, []) := by
  simp [PriorityQueue.enqueue, h]

lemma PriorityQueue.dequeue_empty {q : PriorityQueue} (h : q.heap = [])
    (now : ℚ) : q.dequeue now = (none, q, []) := by
  simp [PriorityQueue.dequeue, PriorityQueue.is_empty, h]

lemma PriorityQueue.dequeue_pop {q : PriorityQueue} {m : PriorityItem}
    {rest : List PriorityItem} (hpop : heappop pilt q.heap = some (m, rest))
    (now : ℚ) :
    q.dequeue now =
      (some m.item,
        { q with
          heap := rest
          stats := q.stats.record_exit now (now - m.entry_time) },
        []) := by
  have hne : q.heap ≠ [] := by
    intro hnil
    rw [hnil, heappop_nil] at hpop
    exact Option.noConfusion hpop
  have hie : q.is_empty = false := by
    simp [PriorityQueue.is_empty, List.isEmpty_iff, hne]
  unfold PriorityQueue.dequeue
  rw [hie]
  simp [hpop]

lemma pq_remove_none {q : PriorityQueue} {item : PyObj}
    (h : q.find_entry item = none) (now : ℚ) :
    q.remove item now = (false, q) := by
  unfold PriorityQueue.remove
  rw [h]

lemma pq_remove_some {q : PriorityQueue} {item : PyObj}
    {e : PriorityItem} (h : q.find_entry item = some e) (now : ℚ) :
    q.remove item now =
      (true,
        { q with
          heap := heapify pilt (q.heap.eraseP (fun w => pieq w e))
          stats := q.stats.record_exit now (now - e.entry_time) }) := by
  unfold PriorityQueue.remove
  rw [h]

lemma PriorityQueue.update_none {q : PriorityQueue} {item : PyObj}
    (h : q.find_entry item = none) (p : ℚ) :
    q.update_priority item p = (false, q) := by
  unfold PriorityQueue.update_priority
  rw [h]

lemma PriorityQueue.update_some {q : PriorityQueue} {item : PyObj}
    {e : PriorityItem} (h : q.find_entry item = some e) (p : ℚ) :
    q.update_priority item p =
      (true,
        { q with
          counter := q.counter + 1
          heap := heappush pilt (q.heap.eraseP (fun w => pieq w e))
            ⟨p, q.counter + 1, item, e.entry_time⟩ }) := by
  unfold PriorityQueue.update_priority
  rw [h]

lemma find?_first_split {β : Type} (p : β → Bool) :
    ∀ (pre : List β) (e : β) (post : List β),
      (∀ w ∈ pre, p w = false) → p e = true →
      (pre ++ e :: post).find? p = some e := by
  intro pre
  induction pre with
  | nil =>
    intro e post _ hpe
    simpa using List.find?_cons_of_pos post hpe
  | cons a rest ih =>
    intro e post hpre hpe
    have ha : p a = false := hpre a (List.mem_cons_self a rest)
    rw [List.cons_append, List.find?_cons_of_neg _ (by simp [ha])]
    exact ih e post (fun w hw => hpre w (List.mem_cons_of_mem a hw)) hpe

lemma eraseP_first_split {β : Type} (p : β → Bool) :
    ∀ (pre : List β) (e : β) (post : List β),
      (∀ w ∈ pre, p w = false) → p e = true →
      (pre ++ e :: post).eraseP p = pre ++ post := by
  intro pre
  induction pre with
  | nil =>
    intro e post _ hpe
    simpa using List.eraseP_cons_of_pos hpe
  | cons a rest ih =>
    intro e post hpre hpe
    have ha : p a = false := hpre a (List.mem_cons_self a rest)
    rw [List.cons_append, List.eraseP_cons_of_neg (by simp [ha]), List.cons_append,
      ih e post (fun w hw => hpre w (List.mem_cons_of_mem a hw)) hpe]

lemma ms_eraseP_of_unique (l : List PriorityItem) (e : PriorityItem)
    (hmem : e ∈ l) (huniq : ∀ w ∈ l, pieq w e = true → w = e) :
    ((l.eraseP (fun w => pieq w e) : List PriorityItem) : Multiset PriorityItem) +
      {e} = (l : Multiset PriorityItem) := by
  obtain ⟨a, l₁, l₂, hl₁, hpa, hl, herase⟩ :=
    @List.exists_of_eraseP _ (fun w => pieq w e) l e hmem (pieq_refl e)
  have ha : a = e := huniq a (hl ▸ List.mem_append_right l₁ (List.mem_cons_self a l₂)) hpa
  subst ha
  rw [herase, hl]
  simp only [← Multiset.coe_add, ← Multiset.cons_coe, Multiset.add_cons,
    ← Multiset.singleton_add]
  abel

lemma expectedEntries_map_item :
    ∀ (jobs : List (PyObj × ℚ × ℚ)) (c : ℕ),
      (expectedEntries c jobs).map (·.item) = jobs.map (·.1) := by
  intro jobs
  induction jobs with
  | nil =>
    intro c
    rfl
  | cons j rest ih =>
    intro c
    simp [expectedEntries, ih]

lemma expectedEntries_priority_zero :
    ∀ (jobs : List (PyObj × ℚ)) (c : ℕ),
      ∀ w ∈ expectedEntries c (jobs.map fun j => (j.1, 0, j.2)), w.priority = 0 := by
  intro jobs
  induction jobs with
  | nil =>
    intro c w hw
    simp [expectedEntries] at hw
  | cons j rest ih =>
    intro c w hw
    simp only [List.map_cons, expectedEntries, List.mem_cons] at hw
    rcases hw with rfl | hw
    · rfl
    · exact ih (c + 1) w hw

lemma enqueue_priority_fn (q : PriorityQueue) (item : PyObj) (p : Option ℚ)
    (now : ℚ) : ((q.enqueue item p now).2.1).priority_fn = q.priority_fn := by
  unfold PriorityQueue.enqueue
  split_ifs <;> rfl

lemma enqueue_default_eq_zero (q : PriorityQueue) (item : PyObj) (now : ℚ)
    (hfn : q.priority_fn = none) :
    q.enqueue item none now = q.enqueue item (some 0) now := by
  unfold PriorityQueue.enqueue
  rw [hfn]

lemma enqueueDefault_eq_jobs :
    ∀ (jobs : List (PyObj × ℚ)) (q : PriorityQueue), q.priority_fn = none →
      enqueueDefault q jobs =
        enqueueJobs q (jobs.map fun j => (j.1, 0, j.2)) := by
  intro jobs
  induction jobs with
  | nil =>
    intro q _
    rfl
  | cons j rest ih =>
    intro q hfn
    simp only [enqueueDefault, enqueueJobs, List.foldl_cons, List.map_cons]
    rw [enqueue_default_eq_zero q j.1 j.2 hfn]
    have hfn' : ((q.enqueue j.1 (some 0) j.2).2.1).priority_fn = none := by
      rw [enqueue_priority_fn]
      exact hfn
    exact ih ((q.enqueue j.1 (some 0) j.2).2.1) hfn'

/-! ### Step lemmas for the statistics invariants -/

lemma Queue.enqueue_lenSync {q : Queue} (h : q.lenSync) (item : PyObj)
    (now : ℚ) : ((q.enqueue item now).2.1).lenSync := by
  cases hfull : q.is_full with
  | false =>
    rw [Queue.enqueue_not_full hfull]
    simp only [Queue.lenSync, QueueStats.record_entry, QueueStats.update_area] at h ⊢
    simp only [List.length_append, List.length_singleton]
    push_cast
    omega
  | true =>
    rw [Queue.enqueue_full hfull]
    exact h

lemma Queue.dequeue_lenSync {q : Queue} (h : q.lenSync) (now : ℚ) :
    ((q.dequeue now).2.1).lenSync := by
  rcases hq : q.entries with _ | ⟨e, rest⟩
  · rw [Queue.dequeue_nil hq]
    exact h
  · rw [Queue.dequeue_cons hq]
    unfold Queue.lenSync at h
    rw [hq] at h
    simp only [Queue.lenSync, QueueStats.record_exit, QueueStats.update_area]
    simp only [List.length_cons] at h
    push_cast at h ⊢
    omega

lemma Queue.remove_lenSync {q : Queue} (h : q.lenSync) (item : PyObj)
    (now : ℚ) : ((q.remove item now).2).lenSync := by
  rcases hfind : q.entries.find? (fun e => pyMatch e.item item) with _ | e
  · rw [Queue.remove_none hfind]
    exact h
  · rw [Queue.remove_some hfind]
    have hmem := List.mem_of_find?_eq_some hfind
    have hlen := @List.length_eraseP_of_mem _ q.entries e
      (fun e2 => pyEntryEq e2 e) hmem (pyEntryEq_refl e)
    have hpos : 0 < q.entries.length :=
      List.length_pos.mpr (List.ne_nil_of_mem hmem)
    simp only [Queue.lenSync, QueueStats.record_exit, QueueStats.update_area] at h ⊢
    rw [hlen]
    omega

lemma Queue.reset_lenSync (q : Queue) : (q.reset_stats).lenSync := by
  simp [Queue.reset_stats, Queue.lenSync]

lemma Queue.step_lenSync (op : QOp) {q : Queue} (h : q.lenSync) :
    (q.step op).lenSync := by
  cases op with
  | enq item t => exact Queue.enqueue_lenSync h item t
  | deq t => exact Queue.dequeue_lenSync h t
  | rem item t => exact Queue.remove_lenSync h item t
  | clear => exact h
  | reset => exact Queue.reset_lenSync q

lemma Queue.run_lenSync {q : Queue} (h : q.lenSync) (ops : List QOp) :
    (q.run ops).lenSync := by
  induction ops generalizing q with
  | nil => exact h
  | cons op rest ih => exact ih (Queue.step_lenSync op h)

lemma Queue.step_netSync {op : QOp} (hop : op ≠ QOp.reset) {q : Queue}
    (h : q.netSync) : (q.step op).netSync := by
  cases op with
  | enq item t =>
    show ((q.enqueue item t).2.1).netSync
    cases hfull : q.is_full with
    | false =>
      rw [Queue.enqueue_not_full hfull]
      simp only [Queue.netSync, QueueStats.record_entry, QueueStats.update_area] at h ⊢
      push_cast
      omega
    | true =>
      rw [Queue.enqueue_full hfull]
      exact h
  | deq t =>
    show ((q.dequeue t).2.1).netSync
    rcases hq : q.entries with _ | ⟨e, rest⟩
    · rw [Queue.dequeue_nil hq]
      exact h
    · rw [Queue.dequeue_cons hq]
      simp only [Queue.netSync, QueueStats.record_exit, QueueStats.update_area] at h ⊢
      push_cast at h ⊢
      omega
  | rem item t =>
    show ((q.remove item t).2).netSync
    rcases hfind : q.entries.find? (fun e => pyMatch e.item item) with _ | e
    · rw [Queue.remove_none hfind]
      exact h
    · rw [Queue.remove_some hfind]
      simp only [Queue.netSync, QueueStats.record_exit, QueueStats.update_area] at h ⊢
      push_cast at h ⊢
      omega
  | clear => exact h
  | reset => exact absurd rfl hop

lemma Queue.run_netSync {q : Queue} (h : q.netSync) :
    ∀ (ops : List QOp), QOp.reset ∉ ops → (q.run ops).netSync := by
  intro ops
  induction ops generalizing q with
  | nil =>
    intro _
    exact h
  | cons op rest ih =>
    intro hops
    have hop : op ≠ QOp.reset := fun he => hops (he ▸ List.mem_cons_self op rest)
    have hrest : QOp.reset ∉ rest := fun hm => hops (List.mem_cons_of_mem _ hm)
    exact ih (Queue.step_netSync hop h) hrest

lemma Queue.step_capacity (q : Queue) (op : QOp) :
    (q.step op).capacity = q.capacity := by
  cases op with
  | enq item t =>
    show ((q.enqueue item t).2.1).capacity = q.capacity
    cases hfull : q.is_full with
    | false => rw [Queue.enqueue_not_full hfull]
    | true => rw [Queue.enqueue_full hfull]
  | deq t =>
    show ((q.dequeue t).2.1).capacity = q.capacity
    rcases hq : q.entries with _ | ⟨e, rest⟩
    · rw [Queue.dequeue_nil hq]
    · rw [Queue.dequeue_cons hq]
  | rem item t =>
    show ((q.remove item t).2).capacity = q.capacity
    rcases hfind : q.entries.find? (fun e => pyMatch e.item item) with _ | e
    · rw [Queue.remove_none hfind]
    · rw [Queue.remove_some hfind]
  | clear => rfl
  | reset => rfl

lemma Queue.step_len_le {q : Queue} (hc : 0 < q.capacity)
    (h : q.entries.length ≤ q.capacity) (op : QOp) :
    (q.step op).entries.length ≤ q.capacity := by
  cases op with
  | enq item t =>
    show ((q.enqueue item t).2.1).entries.length ≤ q.capacity
    cases hfull : q.is_full with
    | false =>
      rw [Queue.enqueue_not_full hfull]
      unfold Queue.is_full at hfull
      rw [if_neg (by omega)] at hfull
      simp only [decide_eq_false_iff_not, not_le] at hfull
      simp only [List.length_append, List.length_singleton]
      omega
    | true =>
      rw [Queue.enqueue_full hfull]
      exact h
  | deq t =>
    show ((q.dequeue t).2.1).entries.length ≤ q.capacity
    rcases hq : q.entries with _ | ⟨e, rest⟩
    · rw [Queue.dequeue_nil hq]
      exact h
    · rw [Queue.dequeue_cons hq]
      rw [hq] at h
      simp only [List.length_cons] at h
      simp only
      omega
  | rem item t =>
    show ((q.remove item t).2).entries.length ≤ q.capacity
    rcases hfind : q.entries.find? (fun e => pyMatch e.item item) with _ | e
    · rw [Queue.remove_none hfind]
      exact h
    · rw [Queue.remove_some hfind]
      have hmem := List.mem_of_find?_eq_some hfind
      have hlen := @List.length_eraseP_of_mem _ q.entries e
        (fun e2 => pyEntryEq e2 e) hmem (pyEntryEq_refl e)
      simp only
      omega
  | clear => exact h
  | reset => exact h

lemma Queue.run_len_le :
    ∀ (ops : List QOp) (q : Queue), 0 < q.capacity →
      q.entries.length ≤ q.capacity →
      (q.run ops).entries.length ≤ q.capacity := by
  intro ops
  induction ops with
  | nil =>
    intro q _ h
    exact h
  | cons op rest ih =>
    intro q hc h
    have hcap := Queue.step_capacity q op
    have hrec := ih (q.step op) (by omega)
      (by rw [hcap]; exact Queue.step_len_le hc h op)
    rw [hcap] at hrec
    exact hrec

lemma pq_enqueue_lenSync {q : PriorityQueue} (h : q.lenSync)
    (item : PyObj) (p : Option ℚ) (now : ℚ) :
    ((q.enqueue item p now).2.1).lenSync := by
  cases hfull : q.is_full with
  | false =>
    rw [pq_enqueue_not_full q item p now hfull]
    simp only [PriorityQueue.lenSync, QueueStats.record_entry,
      QueueStats.update_area, heappush_length] at h ⊢
    push_cast
    omega
  | true =>
    rw [pq_enqueue_full hfull]
    exact h

lemma pq_dequeue_lenSync {q : PriorityQueue} (h : q.lenSync)
    (now : ℚ) : ((q.dequeue now).2.1).lenSync := by
  by_cases hne : q.heap = []
  · rw [PriorityQueue.dequeue_empty hne]
    exact h
  · obtain ⟨m, rest, hpop⟩ := heappop_isSome pilt hne
    rw [PriorityQueue.dequeue_pop hpop]
    have hrl : rest.length = q.heap.length - 1 := heappop_length pilt hpop
    have hpos : 0 < q.heap.length := List.length_pos.mpr hne
    simp only [PriorityQueue.lenSync, QueueStats.record_exit,
      QueueStats.update_area] at h ⊢
    rw [hrl]
    omega

lemma pq_remove_lenSync {q : PriorityQueue} (h : q.lenSync)
    (item : PyObj) (now : ℚ) : ((q.remove item now).2).lenSync := by
  rcases hfind : q.find_entry item with _ | e
  · rw [pq_remove_none hfind]
    exact h
  · rw [pq_remove_some hfind]
    have hmem : e ∈ q.heap := List.mem_of_find?_eq_some hfind
    have hlen := @List.length_eraseP_of_mem _ q.heap e
      (fun w => pieq w e) hmem (pieq_refl e)
    have hpos : 0 < q.heap.length := List.length_pos.mpr (List.ne_nil_of_mem hmem)
    simp only [PriorityQueue.lenSync, QueueStats.record_exit,
      QueueStats.update_area, heapify_length] at h ⊢
    rw [hlen]
    omega

lemma pq_update_lenSync {q : PriorityQueue} (h : q.lenSync)
    (item : PyObj) (p : ℚ) : ((q.update_priority item p).2).lenSync := by
  rcases hfind : q.find_entry item with _ | e
  · rw [PriorityQueue.update_none hfind]
    exact h
  · rw [PriorityQueue.update_some hfind]
    have hmem : e ∈ q.heap := List.mem_of_find?_eq_some hfind
    have hlen := @List.length_eraseP_of_mem _ q.heap e
      (fun w => pieq w e) hmem (pieq_refl e)
    have hpos : 0 < q.heap.length := List.length_pos.mpr (List.ne_nil_of_mem hmem)
    simp only [PriorityQueue.lenSync, heappush_length] at h ⊢
    rw [hlen]
    omega

lemma pq_step_lenSync (op : POp) {q : PriorityQueue} (h : q.lenSync) :
    (q.step op).lenSync := by
  cases op with
  | enq item p t => exact pq_enqueue_lenSync h item p t
  | deq t => exact pq_dequeue_lenSync h t
  | rem item t => exact pq_remove_lenSync h item t
  | upd item p => exact pq_update_lenSync h item p

lemma pq_run_lenSync {q : PriorityQueue} (h : q.lenSync)
    (ops : List POp) : (q.run ops).lenSync := by
  induction ops generalizing q with
  | nil => exact h
  | cons op rest ih => exact ih (pq_step_lenSync op h)

lemma pq_step_netSync (op : POp) {q : PriorityQueue} (h : q.netSync) :
    (q.step op).netSync := by
  cases op with
  | enq item p t =>
    show ((q.enqueue item p t).2.1).netSync
    cases hfull : q.is_full with
    | false =>
      rw [pq_enqueue_not_full q item p t hfull]
      simp only [PriorityQueue.netSync, QueueStats.record_entry,
        QueueStats.update_area] at h ⊢
      push_cast
      omega
    | true =>
      rw [pq_enqueue_full hfull]
      exact h
  | deq t =>
    show ((q.dequeue t).2.1).netSync
    by_cases hne : q.heap = []
    · rw [PriorityQueue.dequeue_empty hne]
      exact h
    · obtain ⟨m, rest, hpop⟩ := heappop_isSome pilt hne
      rw [PriorityQueue.dequeue_pop hpop]
      simp only [PriorityQueue.netSync, QueueStats.record_exit,
        QueueStats.update_area] at h ⊢
      push_cast at h ⊢
      omega
  | rem item t =>
    show ((q.remove item t).2).netSync
    rcases hfind : q.find_entry item with _ | e
    · rw [pq_remove_none hfind]
      exact h
    · rw [pq_remove_some hfind]
      simp only [PriorityQueue.netSync, QueueStats.record_exit,
        QueueStats.update_area] at h ⊢
      push_cast at h ⊢
      omega
  | upd item p =>
    show ((q.update_priority item p).2).netSync
    rcases hfind : q.find_entry item with _ | e
    · rw [PriorityQueue.update_none hfind]
      exact h
    · rw [PriorityQueue.update_some hfind]
      exact h

lemma pq_run_netSync {q : PriorityQueue} (h : q.netSync)
    (ops : List POp) : (q.run ops).netSync := by
  induction ops generalizing q with
  | nil => exact h
  | cons op rest ih => exact ih (pq_step_netSync op h)

lemma pq_step_capacity (q : PriorityQueue) (op : POp) :
    (q.step op).capacity = q.capacity := by
  cases op with
  | enq item p t =>
    show ((q.enqueue item p t).2.1).capacity = q.capacity
    cases hfull : q.is_full with
    | false => rw [pq_enqueue_not_full q item p t hfull]
    | true => rw [pq_enqueue_full hfull]
  | deq t =>
    show ((q.dequeue t).2.1).capacity = q.capacity
    by_cases hne : q.heap = []
    · rw [PriorityQueue.dequeue_empty hne]
    · obtain ⟨m, rest, hpop⟩ := heappop_isSome pilt hne
      rw [PriorityQueue.dequeue_pop hpop]
  | rem item t =>
    show ((q.remove item t).2).capacity = q.capacity
    rcases hfind : q.find_entry item with _ | e
    · rw [pq_remove_none hfind]
    · rw [pq_remove_some hfind]
  | upd item p =>
    show ((q.update_priority item p).2).capacity = q.capacity
    rcases hfind : q.find_entry item with _ | e
    · rw [PriorityQueue.update_none hfind]
    · rw [PriorityQueue.update_some hfind]

lemma pq_step_len_le {q : PriorityQueue} (hc : 0 < q.capacity)
    (h : q.heap.length ≤ q.capacity) (op : POp) :
    (q.step op).heap.length ≤ q.capacity := by
  cases op with
  | enq item p t =>
    show ((q.enqueue item p t).2.1).heap.length ≤ q.capacity
    cases hfull : q.is_full with
    | false =>
      rw [pq_enqueue_not_full q item p t hfull]
      unfold PriorityQueue.is_full at hfull
      rw [if_neg (by omega)] at hfull
      simp only [decide_eq_false_iff_not, not_le] at hfull
      simp only [heappush_length]
      omega
    | true =>
      rw [pq_enqueue_full hfull]
      exact h
  | deq t =>
    show ((q.dequeue t).2.1).heap.length ≤ q.capacity
    by_cases hne : q.heap = []
    · rw [PriorityQueue.dequeue_empty hne]
      exact h
    · obtain ⟨m, rest, hpop⟩ := heappop_isSome pilt hne
      rw [PriorityQueue.dequeue_pop hpop]
      have hrl : rest.length = q.heap.length - 1 := heappop_length pilt hpop
      simp only
      omega
  | rem item t =>
    show ((q.remove item t).2).heap.length ≤ q.capacity
    rcases hfind : q.find_entry item with _ | e
    · rw [pq_remove_none hfind]
      exact h
    · rw [pq_remove_some hfind]
      have hmem : e ∈ q.heap := List.mem_of_find?_eq_some hfind
      have hlen := @List.length_eraseP_of_mem _ q.heap e
        (fun w => pieq w e) hmem (pieq_refl e)
      simp only [heapify_length]
      omega
  | upd item p =>
    show ((q.update_priority item p).2).heap.length ≤ q.capacity
    rcases hfind : q.find_entry item with _ | e
    · rw [PriorityQueue.update_none hfind]
      exact h
    · rw [PriorityQueue.update_some hfind]
      have hmem : e ∈ q.heap := List.mem_of_find?_eq_some hfind
      have hlen := @List.length_eraseP_of_mem _ q.heap e
        (fun w => pieq w e) hmem (pieq_refl e)
      have hpos : 0 < q.heap.length := List.length_pos.mpr (List.ne_nil_of_mem hmem)
      simp only [heappush_length]
      omega

lemma pq_run_len_le :
    ∀ (ops : List POp) (q : PriorityQueue), 0 < q.capacity →
      q.heap.length ≤ q.capacity →
      (q.run ops).heap.length ≤ q.capacity := by
  intro ops
  induction ops with
  | nil =>
    intro q _ h
    exact h
  | cons op rest ih =>
    intro q hc h
    have hcap := pq_step_capacity q op
    have hrec := ih (q.step op) (by omega)
      (by rw [hcap]; exact pq_step_len_le hc h op)
    rw [hcap] at hrec
    exact hrec
lemma popped_spec (cap : ℕ) (fn : Option (PyObj → ℚ))
    (jobs : List (PyObj × ℚ × ℚ)) (hcap : cap = 0 ∨ jobs.length ≤ cap) :
    ((heapPopAll pilt (enqueueJobs (PriorityQueue.init cap fn) jobs).heap :
        List PriorityItem) : Multiset PriorityItem) =
      ((expectedEntries 0 jobs : List PriorityItem) : Multiset PriorityItem) ∧
    (heapPopAll pilt (enqueueJobs (PriorityQueue.init cap fn) jobs).heap).Pairwise
      (fun a b => pilt b a = false) ∧
    (heapPopAll pilt (enqueueJobs (PriorityQueue.init cap fn) jobs).heap).Pairwise
      (fun a b => a.index ≠ b.index) := by
  have hpinit : heapProp pilt (PriorityQueue.init cap fn).heap := by
    intro j hj0 hjlen
    simp [PriorityQueue.init] at hjlen
  have hcap' : (PriorityQueue.init cap fn).capacity = 0 ∨
      (PriorityQueue.init cap fn).heap.length + jobs.length ≤
        (PriorityQueue.init cap fn).capacity := by
    simpa [PriorityQueue.init] using hcap
  obtain ⟨hp, hms, hcnt, hlen⟩ :=
    enqueueJobs_spec jobs (PriorityQueue.init cap fn) hpinit hcap'
  have hmsq : ((enqueueJobs (PriorityQueue.init cap fn) jobs).heap :
      Multiset PriorityItem) =
      ((expectedEntries 0 jobs : List PriorityItem) : Multiset PriorityItem) := by
    rw [hms]
    simp [PriorityQueue.init]
  obtain ⟨hpms, hpw⟩ := heapPopAllAux_spec pilt pilt_irr pilt_asymm pilt_lttrans
    pilt_letrans (enqueueJobs (PriorityQueue.init cap fn) jobs).heap.length
    (enqueueJobs (PriorityQueue.init cap fn) jobs).heap le_rfl hp
  have hmspop :
      ((heapPopAll pilt (enqueueJobs (PriorityQueue.init cap fn) jobs).heap :
        List PriorityItem) : Multiset PriorityItem) =
      ((expectedEntries 0 jobs : List PriorityItem) : Multiset PriorityItem) :=
    hpms.trans hmsq
  have hperm : (heapPopAll pilt
      (enqueueJobs (PriorityQueue.init cap fn) jobs).heap).Perm
      (expectedEntries 0 jobs) := Multiset.coe_eq_coe.mp hmspop
  have hnod_exp : ((expectedEntries 0 jobs).map (·.index)).Nodup :=
    List.pairwise_map.mpr
      ((expectedEntries_pairwise jobs 0).imp (fun h => Nat.ne_of_lt h))
  have hnod_pop : ((heapPopAll pilt
      (enqueueJobs (PriorityQueue.init cap fn) jobs).heap).map (·.index)).Nodup :=
    ((hperm.map _).nodup_iff).mpr hnod_exp
  exact ⟨hmspop, hpw, List.pairwise_map.mp hnod_pop⟩

/-! ### Claim theorems -/

/-- C1 (counterexample): the claimed invariant `current_length = entries - exits`
fails right after `reset_stats` on a non-empty queue: after enqueuing one item
at time 0 and resetting statistics, `current_length` is 1 (re-synchronised to
the container) while `entries - exits` is 0. -/
theorem claim_C1_counterexample :
    ¬ (((Queue.init 0 false false).run [QOp.enq ⟨1, 1⟩ 0, QOp.reset]).stats.current_length =
        ((((Queue.init 0 false false).run [QOp.enq ⟨1, 1⟩ 0, QOp.reset]).stats.entries : ℤ) -
          (((Queue.init 0 false false).run [QOp.enq ⟨1, 1⟩ 0, QOp.reset]).stats.exits : ℤ)) ∧
      ((Queue.init 0 false false).run [QOp.enq ⟨1, 1⟩ 0, QOp.reset]).stats.current_length =
        ((((Queue.init 0 false false).run [QOp.enq ⟨1, 1⟩ 0, QOp.reset]).entries.length : ℤ))) := by
  decide

/-- C1 (amended): for every FIFO or priority queue and every sequence of public
operations, `current_length` always equals the actual number of stored items;
and `current_length = entries - exits` holds at every point of any FIFO
operation sequence containing no `reset_stats` (the priority queue exposes no
`reset_stats`, so there it holds unconditionally). -/
theorem claim_C1 :
    (∀ (c : ℕ) (hasE hasD : Bool) (ops : List QOp),
      ((Queue.init c hasE hasD).run ops).lenSync ∧
      (QOp.reset ∉ ops → ((Queue.init c hasE hasD).run ops).netSync)) ∧
    (∀ (c : ℕ) (fn : Option (PyObj → ℚ)) (ops : List POp),
      ((PriorityQueue.init c fn).run ops).lenSync ∧
      ((PriorityQueue.init c fn).run ops).netSync) := by
  constructor
  · intro c hasE hasD ops
    constructor
    · exact Queue.run_lenSync (by simp [Queue.init, Queue.lenSync, QueueStats.init]) ops
    · intro hnr
      exact Queue.run_netSync (by simp [Queue.init, Queue.netSync, QueueStats.init]) ops hnr
  · intro c fn ops
    constructor
    · exact pq_run_lenSync
        (by simp [PriorityQueue.init, PriorityQueue.lenSync, QueueStats.init]) ops
    · exact pq_run_netSync
        (by simp [PriorityQueue.init, PriorityQueue.netSync, QueueStats.init]) ops

/-- Witness for C1: a concrete reset-free run in which both equations hold. -/
theorem claim_C1_witness :
    QOp.reset ∉ [QOp.enq ⟨1, 1⟩ 0, QOp.deq 5] ∧
    ((Queue.init 0 false false).run [QOp.enq ⟨1, 1⟩ 0, QOp.deq 5]).netSync ∧
    ((PriorityQueue.init 0 none).run [POp.enq ⟨1, 1⟩ none 0]).lenSync := by
  refine ⟨by decide, (claim_C1.1 0 false false [QOp.enq ⟨1, 1⟩ 0, QOp.deq 5]).2 (by decide),
    (claim_C1.2 0 none [POp.enq ⟨1, 1⟩ none 0]).1⟩

/-- C3: a queue constructed with capacity `c > 0` never holds more than `c`
items under any operation sequence, and `enqueue` on a full queue (FIFO or
priority) returns `False` and leaves the state — contents, statistics and
callbacks-fired output — entirely unchanged. -/
theorem claim_C3 :
    (∀ (c : ℕ) (hasE hasD : Bool) (ops : List QOp), 0 < c →
      ((Queue.init c hasE hasD).run ops).entries.length ≤ c) ∧
    (∀ (q : Queue) (item : PyObj) (now : ℚ), q.is_full = true →
      q.enqueue item now = (false, q, [])) ∧
    (∀ (c : ℕ) (fn : Option (PyObj → ℚ)) (ops : List POp), 0 < c →
      ((PriorityQueue.init c fn).run ops).heap.length ≤ c) ∧
    (∀ (q : PriorityQueue) (item : PyObj) (p : Option ℚ) (now : ℚ),
      q.is_full = true → q.enqueue item p now = (false, q, [])) := by
  refine ⟨?_, ?_, ?_, ?_⟩
  · intro c hasE hasD ops hc
    exact Queue.run_len_le ops (Queue.init c hasE hasD) hc (by simp [Queue.init])
  · intro q item now hfull
    exact Queue.enqueue_full hfull item now
  · intro c fn ops hc
    exact pq_run_len_le ops (PriorityQueue.init c fn) hc
      (by simp [PriorityQueue.init])
  · intro q item p now hfull
    exact pq_enqueue_full hfull item p now

/-- Witness for C3: scenario A — a capacity-3 FIFO queue filled with 3 items
rejects the 4th enqueue unchanged, and its length stays 3. -/
theorem claim_C3_witness :
    ((Queue.init 3 false false).run
        [QOp.enq ⟨1, 1⟩ 0, QOp.enq ⟨2, 2⟩ 0, QOp.enq ⟨3, 3⟩ 0]).entries.length ≤ 3 ∧
    (((Queue.init 3 false false).run
        [QOp.enq ⟨1, 1⟩ 0, QOp.enq ⟨2, 2⟩ 0, QOp.enq ⟨3, 3⟩ 0]).enqueue ⟨4, 4⟩ 0 =
      (false,
        (Queue.init 3 false false).run
          [QOp.enq ⟨1, 1⟩ 0, QOp.enq ⟨2, 2⟩ 0, QOp.enq ⟨3, 3⟩ 0], [])) ∧
    ((Queue.init 3 false false).run
        [QOp.enq ⟨1, 1⟩ 0, QOp.enq ⟨2, 2⟩ 0, QOp.enq ⟨3, 3⟩ 0]).entries.length = 3 := by
  refine ⟨claim_C3.1 3 false false _ (by decide),
    claim_C3.2.1 _ ⟨4, 4⟩ 0 (by decide), by decide⟩

/-- C5: both event recorders first extend the occupancy integral by
`current_length * (time - last_change_time)` (using the length before the
change) and then apply the count changes; `average_length` is
`area / last_change_time` when `last_change_time` is nonzero and `0`
otherwise; scenario D follows: two entries at time 0 and one exit at time 5
give `area = 10` and `average_length = 2`. -/
theorem claim_C5 :
    (∀ (s : QueueStats) (t : ℚ),
      (s.record_entry t).area = s.area + s.current_length * (t - s.last_change_time) ∧
      (s.record_entry t).last_change_time = t ∧
      (s.record_entry t).entries = s.entries + 1 ∧
      (s.record_entry t).current_length = s.current_length + 1) ∧
    (∀ (s : QueueStats) (t w : ℚ),
      (s.record_exit t w).area = s.area + s.current_length * (t - s.last_change_time) ∧
      (s.record_exit t w).last_change_time = t ∧
      (s.record_exit t w).exits = s.exits + 1 ∧
      (s.record_exit t w).current_length = s.current_length - 1) ∧
    (∀ s : QueueStats, s.last_change_time ≠ 0 →
      s.average_length = s.area / s.last_change_time) ∧
    (∀ s : QueueStats, s.last_change_time = 0 → s.average_length = 0) ∧
    ((((((Queue.init 0 false false).enqueue ⟨1, 1⟩ 0).2.1.enqueue
        ⟨2, 2⟩ 0).2.1).dequeue 5).2.1.stats.area = 10 ∧
      (((((Queue.init 0 false false).enqueue ⟨1, 1⟩ 0).2.1.enqueue
        ⟨2, 2⟩ 0).2.1).dequeue 5).2.1.stats.average_length = 2) := by
  refine ⟨?_, ?_, ?_, ?_, ?_, ?_⟩
  · intro s t
    exact ⟨rfl, rfl, rfl, rfl⟩
  · intro s t w
    exact ⟨rfl, rfl, rfl, rfl⟩
  · intro s h
    simp [QueueStats.average_length, h]
  · intro s h
    simp [QueueStats.average_length, h]
  · simp [Queue.init, Queue.enqueue, Queue.dequeue, Queue.is_full,
      QueueStats.init, QueueStats.record_entry, QueueStats.record_exit,
      QueueStats.update_area]
    norm_num
  · simp [Queue.init, Queue.enqueue, Queue.dequeue, Queue.is_full,
      QueueStats.init, QueueStats.record_entry, QueueStats.record_exit,
      QueueStats.update_area, QueueStats.average_length]

/-- Witness for C5: the scenario-D statistics have a nonzero
`last_change_time`, and the theorem yields `average_length = area / 5`. -/
theorem claim_C5_witness :
    ((((((Queue.init 0 false false).enqueue ⟨1, 1⟩ 0).2.1.enqueue
        ⟨2, 2⟩ 0).2.1).dequeue 5).2.1.stats.last_change_time ≠ 0) ∧
    (((((Queue.init 0 false false).enqueue ⟨1, 1⟩ 0).2.1.enqueue
        ⟨2, 2⟩ 0).2.1).dequeue 5).2.1.stats.average_length =
      (((((Queue.init 0 false false).enqueue ⟨1, 1⟩ 0).2.1.enqueue
        ⟨2, 2⟩ 0).2.1).dequeue 5).2.1.stats.area /
      (((((Queue.init 0 false false).enqueue ⟨1, 1⟩ 0).2.1.enqueue
        ⟨2, 2⟩ 0).2.1).dequeue 5).2.1.stats.last_change_time := by
  have hne : (((((Queue.init 0 false false).enqueue ⟨1, 1⟩ 0).2.1.enqueue
      ⟨2, 2⟩ 0).2.1).dequeue 5).2.1.stats.last_change_time ≠ 0 := by
    simp [Queue.init, Queue.enqueue, Queue.dequeue, Queue.is_full,
      QueueStats.init, QueueStats.record_entry, QueueStats.record_exit,
      QueueStats.update_area]
  exact ⟨hne, claim_C5.2.2.1 _ hne⟩

/-- C6 (code bug): `Queue.clear` reads the attribute `_items`, which does not
exist on the class (the deque is `_entries`), so every call raises
`AttributeError` before touching any state; in particular the clear operation
never removes items, returns them, or records exits. -/
theorem claim_C6 :
    ∀ q : Queue,
      q.clear = Except.error "AttributeError: Queue object has no attribute _items" ∧
      q.step QOp.clear = q :=
  fun _ => ⟨rfl, rfl⟩

/-- C4: dequeuing (or removing) an item that entered at time `t0` at a
clock value `t1 ≥ t0` adds exactly `t1 - t0` to `total_wait_time` and
increments `exits` by one, for the FIFO queue and the priority queue alike;
scenario C follows: enqueue at time 0 and dequeue at time 10 give
`average_wait = 10`, `entries = 1`, `exits = 1`. -/
theorem claim_C4 :
    (∀ (q : Queue) (e : QueueEntry) (rest : List QueueEntry) (t1 : ℚ),
      q.entries = e :: rest → e.entry_time ≤ t1 →
      (q.dequeue t1).1 = some e.item ∧
      (q.dequeue t1).2.1.stats.total_wait_time =
        q.stats.total_wait_time + (t1 - e.entry_time) ∧
      (q.dequeue t1).2.1.stats.exits = q.stats.exits + 1) ∧
    (∀ (q : Queue) (item : PyObj) (e : QueueEntry) (t1 : ℚ),
      q.entries.find? (fun w => pyMatch w.item item) = some e →
      e.entry_time ≤ t1 →
      (q.remove item t1).1 = true ∧
      (q.remove item t1).2.stats.total_wait_time =
        q.stats.total_wait_time + (t1 - e.entry_time) ∧
      (q.remove item t1).2.stats.exits = q.stats.exits + 1) ∧
    (∀ (q : PriorityQueue) (m : PriorityItem) (rest : List PriorityItem) (t1 : ℚ),
      heappop pilt q.heap = some (m, rest) → m.entry_time ≤ t1 →
      (q.dequeue t1).1 = some m.item ∧
      (q.dequeue t1).2.1.stats.total_wait_time =
        q.stats.total_wait_time + (t1 - m.entry_time) ∧
      (q.dequeue t1).2.1.stats.exits = q.stats.exits + 1) ∧
    (((((Queue.init 0 false false).enqueue ⟨1, 1⟩ 0).2.1).dequeue
        10).2.1.stats.average_wait = 10 ∧
      ((((Queue.init 0 false false).enqueue ⟨1, 1⟩ 0).2.1).dequeue
        10).2.1.stats.entries = 1 ∧
      ((((Queue.init 0 false false).enqueue ⟨1, 1⟩ 0).2.1).dequeue
        10).2.1.stats.exits = 1) := by
  refine ⟨?_, ?_, ?_, ?_⟩
  · intro q e rest t1 hq _
    rw [Queue.dequeue_cons hq]
    exact ⟨rfl, rfl, rfl⟩
  · intro q item e t1 hfind _
    rw [Queue.remove_some hfind]
    exact ⟨rfl, rfl, rfl⟩
  · intro q m rest t1 hpop _
    rw [PriorityQueue.dequeue_pop hpop]
    exact ⟨rfl, rfl, rfl⟩
  · refine ⟨?_, ?_, ?_⟩ <;>
      simp [Queue.init, Queue.enqueue, Queue.dequeue, Queue.is_full,
        QueueStats.init, QueueStats.record_entry, QueueStats.record_exit,
        QueueStats.update_area, QueueStats.average_wait]

/-- Witness for C4: the scenario-C input satisfies the hypotheses, and the
dequeue at time 10 increments `exits`. -/
theorem claim_C4_witness :
    (((Queue.init 0 false false).enqueue ⟨1, 1⟩ 0).2.1.entries = [⟨⟨1, 1⟩, 0⟩]) ∧
    ((0 : ℚ) ≤ 10) ∧
    ((((Queue.init 0 false false).enqueue ⟨1, 1⟩ 0).2.1.dequeue 10).2.1.stats.exits =
      ((Queue.init 0 false false).enqueue ⟨1, 1⟩ 0).2.1.stats.exits + 1) := by
  have hlist : ((Queue.init 0 false false).enqueue ⟨1, 1⟩ 0).2.1.entries =
      [⟨⟨1, 1⟩, 0⟩] := by
    simp [Queue.init, Queue.enqueue, Queue.is_full]
  have hle : ((0 : ℚ) : ℚ) ≤ 10 := by norm_num
  have h := claim_C4.1 (((Queue.init 0 false false).enqueue ⟨1, 1⟩ 0).2.1)
    ⟨⟨1, 1⟩, 0⟩ [] 10 hlist hle
  exact ⟨hlist, hle, h.2.2⟩

/-- C8 (counterexample): identity does not take precedence across entries.
With an earlier value-equal entry (object 1, value 7) and a later entry that
is the target object itself (object 2, value 7), `remove` deletes the
earlier value-equal entry, so the target object is still in the queue. -/
theorem claim_C8_counterexample :
    ((((Queue.init 0 false false).enqueue ⟨1, 7⟩ 0).2.1.enqueue
        ⟨2, 7⟩ 0).2.1.remove ⟨2, 7⟩ 5).1 = true ∧
    ((((Queue.init 0 false false).enqueue ⟨1, 7⟩ 0).2.1.enqueue
        ⟨2, 7⟩ 0).2.1.remove ⟨2, 7⟩ 5).2.entries.map (·.item) = [⟨2, 7⟩] ∧
    ¬ (((((Queue.init 0 false false).enqueue ⟨1, 7⟩ 0).2.1.enqueue
        ⟨2, 7⟩ 0).2.1.remove ⟨2, 7⟩ 5).2.entries.map (·.item) = [⟨1, 7⟩]) := by
  decide

/-- C8 (amended): `remove` and `contains` match the first entry in
head-to-tail scan order whose item is identical to or value-equal to the
target; per-entry the test is `is`-or-`==`, so an earlier value-equal entry
shadows a later identical one.  On a match, the matched wrapper is removed
and an exit is recorded with its wait time (the object-consistency
hypothesis says identical objects carry equal values). -/
theorem claim_C8 :
    (∀ (q : Queue) (item : PyObj),
      q.contains item = true ↔ ∃ e ∈ q.entries, pyMatch e.item item = true) ∧
    (∀ (q : Queue) (item : PyObj) (now : ℚ),
      q.entries.find? (fun w => pyMatch w.item item) = none →
      q.remove item now = (false, q)) ∧
    (∀ (q : Queue) (item : PyObj) (now : ℚ) (e : QueueEntry)
      (pre post : List QueueEntry),
      q.entries = pre ++ e :: post →
      (∀ w ∈ pre, pyMatch w.item item = false) →
      pyMatch e.item item = true →
      (∀ w ∈ q.entries, w.item.oid = item.oid → w.item.val = item.val) →
      (q.remove item now).1 = true ∧
      (q.remove item now).2.entries = pre ++ post ∧
      (q.remove item now).2.stats = q.stats.record_exit now (now - e.entry_time)) := by
  refine ⟨?_, ?_, ?_⟩
  · intro q item
    simp [Queue.contains, List.any_eq_true]
  · intro q item now hfind
    exact Queue.remove_none hfind now
  · intro q item now e pre post hsplit hpre hpe hcons
    have hfind : q.entries.find? (fun w => pyMatch w.item item) = some e := by
      rw [hsplit]
      exact find?_first_split _ pre e post (fun w hw => hpre w hw) hpe
    rw [Queue.remove_some hfind]
    refine ⟨rfl, ?_, rfl⟩
    show q.entries.eraseP (fun e2 => pyEntryEq e2 e) = pre ++ post
    rw [hsplit]
    apply eraseP_first_split
    · intro w hw
      cases hq : pyEntryEq w e
      · rfl
      · exfalso
        have hval : w.item.val = e.item.val := by
          simp [pyEntryEq, pyObjEq] at hq
          exact hq.1
        have heval : e.item.val = item.val := by
          simp [pyMatch] at hpe
          rcases hpe with hoid | hval2
          · exact hcons e
              (hsplit ▸ List.mem_append_right pre (List.mem_cons_self e post)) hoid
          · exact hval2
        have hmatch : pyMatch w.item item = true := by
          simp [pyMatch]
          exact Or.inr (hval.trans heval)
        rw [hpre w hw] at hmatch
        exact Bool.false_ne_true hmatch
    · exact pyEntryEq_refl e

/-- Witness for C8: removing value 5 from entries `[(obj 1, val 5) at 0,
(obj 2, val 7) at 0]` with target object 3 of value 7 matches the second
entry: the first entry does not match and the wrapper of the match is
removed. -/
theorem claim_C8_witness :
    ((((Queue.init 0 false false).enqueue ⟨1, 5⟩ 0).2.1.enqueue
        ⟨2, 7⟩ 0).2.1.entries = [⟨⟨1, 5⟩, 0⟩] ++ ⟨⟨2, 7⟩, 0⟩ :: []) ∧
    ((((Queue.init 0 false false).enqueue ⟨1, 5⟩ 0).2.1.enqueue
        ⟨2, 7⟩ 0).2.1.remove ⟨3, 7⟩ 4).1 = true ∧
    ((((Queue.init 0 false false).enqueue ⟨1, 5⟩ 0).2.1.enqueue
        ⟨2, 7⟩ 0).2.1.remove ⟨3, 7⟩ 4).2.entries = [⟨⟨1, 5⟩, 0⟩] ++ [] := by
  have hsplit : (((Queue.init 0 false false).enqueue ⟨1, 5⟩ 0).2.1.enqueue
      ⟨2, 7⟩ 0).2.1.entries = [⟨⟨1, 5⟩, 0⟩] ++ ⟨⟨2, 7⟩, 0⟩ :: [] := by
    simp [Queue.init, Queue.enqueue, Queue.is_full]
  have h := claim_C8.2.2 ((((Queue.init 0 false false).enqueue ⟨1, 5⟩ 0).2.1.enqueue
      ⟨2, 7⟩ 0).2.1) ⟨3, 7⟩ 4 ⟨⟨2, 7⟩, 0⟩ [⟨⟨1, 5⟩, 0⟩] []
    hsplit (by decide) (by decide) (by rw [hsplit]; decide)
  exact ⟨hsplit, h.1, h.2.1⟩

/-- C9 (counterexample): the priority queue registers no callbacks: a
successful enqueue fires no callback event, contrary to the claimed
instrumentation surface shared with the FIFO queue. -/
theorem claim_C9_counterexample :
    ((PriorityQueue.init 0 none).enqueue ⟨1, 1⟩ none 0).1 = true ∧
    ¬ (((PriorityQueue.init 0 none).enqueue ⟨1, 1⟩ none 0).2.2 =
        [CbEvent.enq ⟨1, 1⟩]) := by
  decide

/-- C9 (amended): the priority queue mirrors the FIFO queue's capacity
semantics and statistics accounting — identical fullness rule, identical
`record_entry` on successful enqueue and identical `record_exit` with the
true wait on dequeue — but it exposes no `reset_stats` operation and no
enqueue/dequeue callback hooks; its operations fire no callback events. -/
theorem claim_C9 :
    (∀ (q : PriorityQueue) (item : PyObj) (p : Option ℚ) (now : ℚ),
      (q.enqueue item p now).2.2 = []) ∧
    (∀ (q : PriorityQueue) (now : ℚ), (q.dequeue now).2.2 = []) ∧
    (∀ (qp : PriorityQueue) (f : Queue), qp.capacity = f.capacity →
      qp.heap.length = f.entries.length → qp.is_full = f.is_full) ∧
    (∀ (qp : PriorityQueue) (f : Queue) (item : PyObj) (p : Option ℚ) (now : ℚ),
      qp.capacity = f.capacity → qp.heap.length = f.entries.length →
      qp.stats = f.stats →
      (qp.enqueue item p now).1 = (f.enqueue item now).1 ∧
      (qp.enqueue item p now).2.1.stats = (f.enqueue item now).2.1.stats) ∧
    (∀ (q : PriorityQueue) (m : PriorityItem) (rest : List PriorityItem) (t : ℚ),
      heappop pilt q.heap = some (m, rest) →
      (q.dequeue t).2.1.stats = q.stats.record_exit t (t - m.entry_time)) ∧
    (∀ (f : Queue) (e : QueueEntry) (rest : List QueueEntry) (t : ℚ),
      f.entries = e :: rest →
      (f.dequeue t).2.1.stats = f.stats.record_exit t (t - e.entry_time)) := by
  have hfull_eq : ∀ (qp : PriorityQueue) (f : Queue), qp.capacity = f.capacity →
      qp.heap.length = f.entries.length → qp.is_full = f.is_full := by
    intro qp f hcap hlen
    unfold PriorityQueue.is_full Queue.is_full
    rw [hcap, hlen]
  refine ⟨?_, ?_, hfull_eq, ?_, ?_, ?_⟩
  · intro q item p now
    cases hfull : q.is_full with
    | false => rw [pq_enqueue_not_full q item p now hfull]
    | true => rw [pq_enqueue_full hfull]
  · intro q now
    by_cases hne : q.heap = []
    · rw [PriorityQueue.dequeue_empty hne]
    · obtain ⟨m, rest, hpop⟩ := heappop_isSome pilt hne
      rw [PriorityQueue.dequeue_pop hpop]
  · intro qp f item p now hcap hlen hstats
    have hfe := hfull_eq qp f hcap hlen
    cases hfull : f.is_full with
    | false =>
      rw [pq_enqueue_not_full qp item p now (hfe.trans hfull),
        Queue.enqueue_not_full hfull]
      exact ⟨rfl, by rw [hstats]⟩
    | true =>
      rw [pq_enqueue_full (hfe.trans hfull),
        Queue.enqueue_full hfull]
      exact ⟨rfl, hstats⟩
  · intro q m rest t hpop
    rw [PriorityQueue.dequeue_pop hpop]
  · intro f e rest t hq
    rw [Queue.dequeue_cons hq]

/-- Witness for C9: a freshly constructed priority queue and FIFO queue of
capacity 2 agree on fullness. -/
theorem claim_C9_witness :
    ((PriorityQueue.init 2 none).capacity = (Queue.init 2 false false).capacity) ∧
    ((PriorityQueue.init 2 none).heap.length =
      (Queue.init 2 false false).entries.length) ∧
    (PriorityQueue.init 2 none).is_full = (Queue.init 2 false false).is_full := by
  exact ⟨rfl, rfl, claim_C9.2.2.1 (PriorityQueue.init 2 none)
    (Queue.init 2 false false) rfl rfl⟩

/-- C7: `update_priority` on an absent item returns `False` and leaves the
queue untouched; on a present item it returns `True`, leaves the statistics
untouched, replaces the found wrapper by one carrying the new priority, a
strictly larger fresh sequence number and the original entry time (so a
later dequeue computes the wait from the original enqueue time).  The two
side conditions are reachable-state invariants: every stored sequence
number is at most the counter, and sequence numbers are distinct. -/
theorem claim_C7 :
    (∀ (q : PriorityQueue) (item : PyObj) (p : ℚ),
      q.find_entry item = none → q.update_priority item p = (false, q)) ∧
    (∀ (q : PriorityQueue) (item : PyObj) (p : ℚ) (e : PriorityItem),
      q.find_entry item = some e →
      (∀ w ∈ q.heap, w.index ≤ q.counter) →
      ((q.heap.map (·.index)).Nodup) →
      (q.update_priority item p).1 = true ∧
      (q.update_priority item p).2.stats = q.stats ∧
      (q.update_priority item p).2.counter = q.counter + 1 ∧
      (((q.update_priority item p).2.heap : List PriorityItem) :
          Multiset PriorityItem) + {e} =
        (q.heap : Multiset PriorityItem) +
          {⟨p, q.counter + 1, item, e.entry_time⟩} ∧
      (∀ w ∈ q.heap, w.index < q.counter + 1)) := by
  constructor
  · intro q item p hfind
    exact PriorityQueue.update_none hfind p
  · intro q item p e hfind hidx hnodup
    have hmem : e ∈ q.heap := List.mem_of_find?_eq_some hfind
    rw [PriorityQueue.update_some hfind]
    refine ⟨rfl, rfl, rfl, ?_, fun w hw => Nat.lt_succ_of_le (hidx w hw)⟩
    show ((heappush pilt (q.heap.eraseP (fun w => pieq w e))
        ⟨p, q.counter + 1, item, e.entry_time⟩ : List PriorityItem) :
          Multiset PriorityItem) + {e} = _
    rw [heappush_ms]
    have huniq : ∀ w ∈ q.heap, pieq w e = true → w = e := by
      intro w hw hpw
      have hidx_eq : w.index = e.index := by
        simp [pieq] at hpw
        exact hpw.2
      exact List.inj_on_of_nodup_map hnodup hw hmem hidx_eq
    have hms := ms_eraseP_of_unique q.heap e hmem huniq
    calc ((q.heap.eraseP (fun w => pieq w e) : List PriorityItem) :
          Multiset PriorityItem) +
          {⟨p, q.counter + 1, item, e.entry_time⟩} + {e}
        = ((q.heap.eraseP (fun w => pieq w e) : List PriorityItem) :
            Multiset PriorityItem) + {e} +
            {⟨p, q.counter + 1, item, e.entry_time⟩} := by abel
      _ = (q.heap : Multiset PriorityItem) +
            {⟨p, q.counter + 1, item, e.entry_time⟩} := by rw [hms]

/-- Witness for C7: a queue with wrappers `(5, 1, obj 1, 0)` and
`(1, 2, obj 2, 1)` satisfies the hypotheses; updating obj 1 succeeds and
bumps the counter. -/
theorem claim_C7_witness :
    ((enqueueJobs (PriorityQueue.init 0 none)
        [(⟨1, 1⟩, 5, 0), (⟨2, 2⟩, 1, 1)]).find_entry ⟨1, 1⟩ =
      some ⟨5, 1, ⟨1, 1⟩, 0⟩) ∧
    (∀ w ∈ (enqueueJobs (PriorityQueue.init 0 none)
        [(⟨1, 1⟩, 5, 0), (⟨2, 2⟩, 1, 1)]).heap,
      w.index ≤ (enqueueJobs (PriorityQueue.init 0 none)
        [(⟨1, 1⟩, 5, 0), (⟨2, 2⟩, 1, 1)]).counter) ∧
    ((enqueueJobs (PriorityQueue.init 0 none)
        [(⟨1, 1⟩, 5, 0), (⟨2, 2⟩, 1, 1)]).heap.map (·.index)).Nodup ∧
    ((enqueueJobs (PriorityQueue.init 0 none)
        [(⟨1, 1⟩, 5, 0), (⟨2, 2⟩, 1, 1)]).update_priority ⟨1, 1⟩ 0).1 = true ∧
    ((enqueueJobs (PriorityQueue.init 0 none)
        [(⟨1, 1⟩, 5, 0), (⟨2, 2⟩, 1, 1)]).update_priority ⟨1, 1⟩ 0).2.counter =
      (enqueueJobs (PriorityQueue.init 0 none)
        [(⟨1, 1⟩, 5, 0), (⟨2, 2⟩, 1, 1)]).counter + 1 := by
  have h := claim_C7.2 (enqueueJobs (PriorityQueue.init 0 none)
      [(⟨1, 1⟩, 5, 0), (⟨2, 2⟩, 1, 1)]) ⟨1, 1⟩ 0 ⟨5, 1, ⟨1, 1⟩, 0⟩
    (by decide) (by decide) (by decide)
  exact ⟨by decide, by decide, by decide, h.1, h.2.2.1⟩

/-- C2: for any capacity large enough for all enqueues, any priority function and
any job list with explicit priorities, dequeuing the queue dry returns the
items of the popped wrappers; the popped wrappers are exactly the enqueued
wrappers (the k-th job is stamped with sequence number `k + 1`), and they
come out in strictly increasing lexicographic `(priority, sequence)` order:
non-decreasing priority, with equal-priority items in enqueue order. -/
theorem claim_C2 (cap : ℕ) (fn : Option (PyObj → ℚ))
    (jobs : List (PyObj × ℚ × ℚ)) (hcap : cap = 0 ∨ jobs.length ≤ cap)
    (now : ℚ) :
    (enqueueJobs (PriorityQueue.init cap fn) jobs).dequeueAll now =
      (heapPopAll pilt
        (enqueueJobs (PriorityQueue.init cap fn) jobs).heap).map (·.item) ∧
    ((heapPopAll pilt (enqueueJobs (PriorityQueue.init cap fn) jobs).heap :
        List PriorityItem) : Multiset PriorityItem) =
      ((expectedEntries 0 jobs : List PriorityItem) : Multiset PriorityItem) ∧
    (heapPopAll pilt (enqueueJobs (PriorityQueue.init cap fn) jobs).heap).Pairwise
      (fun a b =>
        a.priority < b.priority ∨ (a.priority = b.priority ∧ a.index < b.index)) := by
  obtain ⟨hms, hpw, hne⟩ := popped_spec cap fn jobs hcap
  refine ⟨PriorityQueue.dequeueAll_eq _ now, hms, ?_⟩
  refine (hpw.and hne).imp ?_
  intro a b hab
  obtain ⟨hle, hne2⟩ := hab
  rw [pilt_false_iff] at hle
  rcases hle with h | ⟨heq, hle2⟩
  · exact Or.inl h
  · exact Or.inr ⟨heq, by omega⟩

/-- Witness for C2: scenario B — priorities `[5, 1, 5, 3]` enqueued at
increasing times dequeue as priority 1, then 3, then the two priority-5
items in insertion order. -/
theorem claim_C2_witness :
    ((0 : ℕ) = 0 ∨
      ([((⟨1, 1⟩ : PyObj), (5 : ℚ), (0 : ℚ)), (⟨2, 2⟩, 1, 1), (⟨3, 3⟩, 5, 2),
        (⟨4, 4⟩, 3, 3)].length ≤ 0)) ∧
    (enqueueJobs (PriorityQueue.init 0 none)
        [(⟨1, 1⟩, 5, 0), (⟨2, 2⟩, 1, 1), (⟨3, 3⟩, 5, 2),
          (⟨4, 4⟩, 3, 3)]).dequeueAll 10 =
      [⟨2, 2⟩, ⟨4, 4⟩, ⟨1, 1⟩, ⟨3, 3⟩] := by
  refine ⟨Or.inl rfl, ?_⟩
  have h := claim_C2 0 none
    [(⟨1, 1⟩, 5, 0), (⟨2, 2⟩, 1, 1), (⟨3, 3⟩, 5, 2), (⟨4, 4⟩, 3, 3)]
    (Or.inl rfl) 10
  rw [h.1]
  decide

/-- C10: a priority queue constructed without a priority function assigns
priority `0.0` to every enqueue that omits the explicit priority argument,
so all items tie and dequeues return them exactly in enqueue order — the
default-configured priority queue behaves as a FIFO queue. -/
theorem claim_C10 (cap : ℕ) (jobs : List (PyObj × ℚ)) (now : ℚ)
    (hcap : cap = 0 ∨ jobs.length ≤ cap) :
    (∀ (q : PriorityQueue) (item : PyObj) (t : ℚ), q.priority_fn = none →
      q.is_full = false →
      (q.enqueue item none t).2.1.heap =
        heappush pilt q.heap ⟨0, q.counter + 1, item, t⟩) ∧
    (enqueueDefault (PriorityQueue.init cap none) jobs).dequeueAll now =
      jobs.map (·.1) := by
  constructor
  · intro q item t hfn hfull
    rw [pq_enqueue_not_full q item none t hfull, hfn]
  · rw [enqueueDefault_eq_jobs jobs _ rfl]
    have hcap' : cap = 0 ∨ (jobs.map fun j => (j.1, (0 : ℚ), j.2)).length ≤ cap := by
      simpa using hcap
    obtain ⟨hms, hpw, hne⟩ := popped_spec cap none (jobs.map fun j => (j.1, 0, j.2)) hcap'
    have hperm : (heapPopAll pilt (enqueueJobs (PriorityQueue.init cap none)
        (jobs.map fun j => (j.1, 0, j.2))).heap).Perm
        (expectedEntries 0 (jobs.map fun j => (j.1, 0, j.2))) :=
      Multiset.coe_eq_coe.mp hms
    have hzero_pop : ∀ w ∈ heapPopAll pilt (enqueueJobs (PriorityQueue.init cap none)
        (jobs.map fun j => (j.1, 0, j.2))).heap, w.priority = 0 :=
      fun w hw => expectedEntries_priority_zero jobs 0 w (hperm.mem_iff.mp hw)
    have hsorted_pop : List.Pairwise (fun a b : PriorityItem => a.index < b.index)
        (heapPopAll pilt (enqueueJobs (PriorityQueue.init cap none)
          (jobs.map fun j => (j.1, 0, j.2))).heap) := by
      refine (hpw.and hne).imp_of_mem ?_
      intro a b ha hb hab
      obtain ⟨hle, hne2⟩ := hab
      rw [pilt_false_iff] at hle
      have hap := hzero_pop a ha
      have hbp := hzero_pop b hb
      rcases hle with h | ⟨_, hle2⟩
      · rw [hap, hbp] at h
        exact absurd h (lt_irrefl 0)
      · omega
    have hsorted_exp := expectedEntries_pairwise (jobs.map fun j => (j.1, 0, j.2)) 0
    haveI : IsAntisymm PriorityItem (fun a b => a.index < b.index) :=
      ⟨fun a b h1 h2 => absurd h2 (Nat.lt_asymm h1)⟩
    have heq : heapPopAll pilt (enqueueJobs (PriorityQueue.init cap none)
        (jobs.map fun j => (j.1, 0, j.2))).heap =
        expectedEntries 0 (jobs.map fun j => (j.1, 0, j.2)) :=
      List.eq_of_perm_of_sorted hperm hsorted_pop hsorted_exp
    rw [PriorityQueue.dequeueAll_eq _ now, heq, expectedEntries_map_item]
    simp

/-- Witness for C10: two items enqueued with no explicit priority dequeue
in enqueue order. -/
theorem claim_C10_witness :
    ((0 : ℕ) = 0 ∨ ([((⟨1, 1⟩ : PyObj), (0 : ℚ)), (⟨2, 2⟩, 1)].length ≤ 0)) ∧
    (enqueueDefault (PriorityQueue.init 0 none)
        [(⟨1, 1⟩, 0), (⟨2, 2⟩, 1)]).dequeueAll 10 = [⟨1, 1⟩, ⟨2, 2⟩] := by
  refine ⟨Or.inl rfl, ?_⟩
  have h := (claim_C10 0 [(⟨1, 1⟩, 0), (⟨2, 2⟩, 1)] 10 (Or.inl rfl)).2
  simpa using h

end Simcraft
